import Mathlib

/-!
# Verification of the skello scaffolding planner and executor

Shallow embedding of the scaffolding core of the `skello` repository:

* `src/easy_venv/models/config.py` — token parser (`FileSpec.parse`),
  request tables and per-kind option keys;
* `src/easy_venv/models/scaffold_context.py` — plan builder
  (`ScaffoldContext.build`) with prioritization and conflict filtering;
* `src/easy_venv/scaffold_manger.py` — executor (`execute_plan` and the
  `_create_*` family, `_write_file`, `_build_pyproject_sections`);
* `src/easy_venv/file_manager.py` — legacy path (`FileManager.create_license`).

Python strings are modelled as `List Char` (`PyStr`).  Python's `str.replace`
with a single-character pattern is a character-wise map; `str.lower` is
modelled with `Char.toLower` (adequate for the ASCII data involved).
Python dicts are modelled as insertion-ordered association lists whose
update-in-place semantics (`d[k] = v` keeps the key position) is mirrored by
`mapInsert`.  The filesystem is an association list from relative paths to
file contents in which a write conses a new (shadowing) binding.
-/

set_option maxHeartbeats 1000000

namespace Skello

/-- Python strings, modelled as lists of characters. -/
abbrev PyStr := List Char

/-- Shorthand turning a Lean string literal into the `PyStr` model. -/
def ps (s : String) : PyStr := s.data

/-- Python `s.split(sep, 1)`: the text before the first separator, and
(optionally) everything after it.  `none` means the separator is absent. -/
def splitFirst (sep : Char) : PyStr → PyStr × Option PyStr
  | [] => ([], none)
  | c :: cs =>
    if c = sep then ([], some cs)
    else
      let r := splitFirst sep cs
      (c :: r.1, r.2)

/-- Python `s.split(sep)`: full split; the empty string yields `[""]`,
and trailing separators yield trailing empty segments, as in Python. -/
def splitAll (sep : Char) : PyStr → List PyStr
  | [] => [[]]
  | c :: cs =>
    if c = sep then [] :: splitAll sep cs
    else
      match splitAll sep cs with
      | [] => [[c]]
      | h :: t => (c :: h) :: t

/-- Association-list lookup (model of Python dict lookup). -/
def assocLookup {α β : Type} [DecidableEq α] (k : α) : List (α × β) → Option β
  | [] => none
  | (a, b) :: rest => if a = k then some b else assocLookup k rest

/-- Replace the binding of a key in place (used by `mapInsert`). -/
def replaceKey {α β : Type} [DecidableEq α] (m : List (α × β)) (k : α) (v : β) :
    List (α × β) :=
  match m with
  | [] => []
  | (a, b) :: rest =>
    if a = k then (k, v) :: replaceKey rest k v
    else (a, b) :: replaceKey rest k v

/-- Python dict assignment `d[k] = v`: update in place (keeping the key's
position) if the key is present, else append at the end. -/
def mapInsert {α β : Type} [DecidableEq α] (m : List (α × β)) (k : α) (v : β) :
    List (α × β) :=
  if (assocLookup k m).isSome then replaceKey m k v
  else m ++ [(k, v)]

/-- Membership of a string in a list of strings, as a boolean. -/
def strMem (s : PyStr) : List PyStr → Bool
  | [] => false
  | t :: ts => if t = s then true else strMem s ts

/-- Boolean prefix test on character lists. -/
def startsWith : PyStr → PyStr → Bool
  | [], _ => true
  | _ :: _, [] => false
  | p :: ps, c :: cs => if p = c then startsWith ps cs else false

/-- Python `str.replace(old, new)` for a single-character pattern:
a character-wise map. -/
def pyReplaceChar (s : PyStr) (old new : Char) : PyStr :=
  s.map (fun c => if c = old then new else c)

/-- Python `str.lower`, modelled character-wise with `Char.toLower`. -/
def pyLower (s : PyStr) : PyStr := s.map Char.toLower

/-- Python `str.title`, used only inside rendered template variables:
the first alphabetic character of each alphabetic run is upper-cased,
the rest lower-cased. -/
def pyTitleAux : Bool → PyStr → PyStr
  | _, [] => []
  | prevAlpha, c :: cs =>
    let c2 := if c.isAlpha then (if prevAlpha then c.toLower else c.toUpper) else c
    c2 :: pyTitleAux c.isAlpha cs

/-- Python `str.title`. -/
def pyTitle (s : PyStr) : PyStr := pyTitleAux false s

/-! ## Data model (`src/easy_venv/models/config.py`) -/

/-- `FileType` enum: file kinds that can be created (closed set). -/
inductive FileType where
  | license
  | requirements
  | pyproject
  | gitignore
  | readme
  | changelog
deriving DecidableEq, Repr

/-- The members of `FileType`, in Python enum definition order
(the order `for file_type in FileType` iterates). -/
def FileType.enumList : List FileType :=
  [.license, .requirements, .pyproject, .gitignore, .readme, .changelog]

/-- `StructureTemplate` enum: project structure templates. -/
inductive StructureTemplate where
  | main
  | full
  | all
deriving DecidableEq, Repr

/-- A parsed file-creation request: kind plus the supplied options
(an insertion-ordered string-to-string mapping). -/
structure FileSpec where
  file_type : FileType
  options : List (PyStr × PyStr) := []
deriving DecidableEq, Repr

/-- `FileSpec.get`: option lookup with a caller-supplied default. -/
def FileSpec.get (spec : FileSpec) (key : PyStr) (dflt : PyStr) : PyStr :=
  match assocLookup key spec.options with
  | some v => v
  | none => dflt

/-- `_CONFIGS[...]["aliases"]` from `config.py`, per file type. -/
def aliasesOf : FileType → List PyStr
  | .license => [ps "l", ps "lic"]
  | .requirements => [ps "r", ps "req"]
  | .pyproject => [ps "p", ps "toml"]
  | .gitignore => [ps "g", ps "git"]
  | .readme => [ps "md", ps "read"]
  | .changelog => [ps "ch", ps "log"]

/-- `_CONFIGS[...]["option_keys"]` from `config.py`, per file type. -/
def optionKeys : FileType → List PyStr
  | .license => [ps "type", ps "author", ps "filename"]
  | .requirements => [ps "filename"]
  | .pyproject => []
  | .gitignore => []
  | .readme => []
  | .changelog => []

/-- `_STRUCTURE_ALIASES` from `config.py`. -/
def structAliases : List (PyStr × StructureTemplate) :=
  [(ps "m", .main), (ps "main", .main),
   (ps "f", .full), (ps "full", .full),
   (ps "*", .all), (ps "all", .all)]

/-- The `for file_type, config in cls._CONFIGS.items()` scan in
`FileSpec.parse`: the first file type one of whose aliases equals the head. -/
def findFileType (headAlias : PyStr) : Option FileType :=
  FileType.enumList.find? (fun ft => strMem headAlias (aliasesOf ft))

/-- `FileSpec.parse` from `config.py`: split the token on the first `:`;
look the head up first among structure aliases, then among file-kind aliases;
zip the remaining `:`-separated segments positionally onto the kind's option
keys, dropping empty segments.  Pure function of the token. -/
def FileSpec.parse (arg : PyStr) : Option FileSpec × Option StructureTemplate :=
  let p := splitFirst ':' arg
  let headAlias := p.1
  let optionString := p.2
  match assocLookup headAlias structAliases with
  | some st => (none, some st)
  | none =>
    match findFileType headAlias with
    | some ft =>
      let options :=
        match optionString with
        | some os =>
          if os ≠ [] ∧ optionKeys ft ≠ [] then
            ((optionKeys ft).zip (splitAll ':' os)).filter (fun kv => kv.2 ≠ [])
          else []
        | none => []
      (some ⟨ft, options⟩, none)
    | none => (none, none)

/-! ## File contents and the filesystem model -/

/-- A rendered pyproject.toml section: either active text or the same text
commented out (the source builds the commented variant by prefixing each line
with a comment marker; only the active/commented distinction matters here). -/
inductive TomlSection where
  | active (body : PyStr)
  | commented (body : PyStr)
deriving DecidableEq, Repr

/-- Whether a section is active (uncommented). -/
def TomlSection.isActive : TomlSection → Bool
  | .active _ => true
  | .commented _ => false

/-- The substitution variables `_build_pyproject_sections` returns
(`scaffold_manger.py`). -/
structure PyprojectSections where
  project_name : PyStr
  license_classifier : PyStr
  readme_section : TomlSection
  license_section : TomlSection
  pytest_section : TomlSection
  build_section : TomlSection
deriving DecidableEq, Repr

/-- File contents.  `_get_template_content` reads a named template resource
and safe-substitutes variables into it; the template resources are not part
of the source tree, so a rendered file is modelled as the template name
paired with the substituted variables (distinct template/variable data give
distinct contents).  `pyproject` carries its structured sections;
`empty` is the content `Path.touch()` creates; `pre n` stands for an
arbitrary pre-existing file content. -/
inductive Content where
  | empty
  | tmpl (name : PyStr) (vars : List (PyStr × PyStr))
  | pyproject (sections : PyprojectSections)
  | pre (n : Nat)
deriving DecidableEq, Repr

/-- Rendering a template: `_get_template_content(filename, **kwargs)`. -/
def render (name : PyStr) (vars : List (PyStr × PyStr)) : Content :=
  .tmpl name vars

/-- The filesystem under the target directory: relative path to content.
A write conses a shadowing binding; nothing ever deletes a file. -/
abbrev FS := List (PyStr × Content)

/-- Lookup of a path's content. -/
def fsLookup (p : PyStr) (fs : FS) : Option Content := assocLookup p fs

/-- `Path.exists()` in the model. -/
def fsHas (p : PyStr) (fs : FS) : Bool := (fsLookup p fs).isSome

/-! ## Directory snapshot

`scaffold_context.py` imports `DirectorySnapshot` from
`easy_venv/directory_snapshot.py`, which is not part of the provided source
tree, so the snapshot is modelled from the spec. -/

/-- Modelled from the spec: `DirectorySnapshot`
(`src/easy_venv/directory_snapshot.py` is not in the source tree).
Per spec §3/§4.2 a snapshot is an immutable value recording which of a fixed
list of well-known filenames exist, plus two structural checks (source-package
layout, tests directory). -/
structure DirectorySnapshot where
  existing_files : List PyStr
  has_src_layout : Bool
  has_tests : Bool
deriving DecidableEq, Repr

/-- Modelled from the spec: the fixed list of well-known filenames the
snapshot checks (manifests, readme, license, changelog, ignore-file). -/
def wellKnownFilenames : List PyStr :=
  [ps "pyproject.toml", ps "requirements.txt", ps "README.md",
   ps "LICENSE", ps "CHANGELOG.md", ps ".gitignore"]

/-- Modelled from the spec: `DirectorySnapshot.scan` — a bounded set of
existence checks for the well-known filenames plus the two structural
checks. -/
def DirectorySnapshot.scan (fs : FS) : DirectorySnapshot :=
  { existing_files := wellKnownFilenames.filter (fun n => fsHas n fs)
    has_src_layout := fs.any (fun e => startsWith (ps "src/") e.1)
    has_tests := fs.any (fun e => startsWith (ps "tests/") e.1) }

/-- Modelled from the spec: `DirectorySnapshot.file_exists(name)` — whether
`name` was recorded as existing by the scan.  Only the well-known filenames
can ever be recorded. -/
def DirectorySnapshot.file_exists (snap : DirectorySnapshot) (name : PyStr) : Bool :=
  strMem name snap.existing_files

/-! ## License catalog

`scaffold_manger.py` imports `LicenseHelper` from
`easy_venv/license_helper.py`, which is not part of the provided source tree,
so it is modelled from the spec (§4.5), with the alias/classifier table taken
from the parallel `_get_supported_licenses` table in `file_manager.py`. -/

/-- A license catalog entry: template identifier and classifier string. -/
structure LicenseInfo where
  template : PyStr
  classifier : PyStr
deriving DecidableEq, Repr

/-- Modelled from the spec: the closed license-alias table
(aliases and classifiers as in `FileManager._get_supported_licenses`). -/
def licenseTable : List (PyStr × LicenseInfo) :=
  [(ps "mit", ⟨ps "LICENSE_MIT.tmpl", ps "MIT License"⟩),
   (ps "apache", ⟨ps "LICENSE_APACHE.tmpl", ps "Apache Software License"⟩),
   (ps "bsd", ⟨ps "LICENSE_BSD.tmpl", ps "BSD License"⟩),
   (ps "gpl", ⟨ps "LICENSE_GPL.tmpl", ps "GNU General Public License v3 (GPLv3)"⟩),
   (ps "lgpl", ⟨ps "LICENSE_LGPL.tmpl", ps "GNU Lesser General Public License v3 (LGPLv3)"⟩),
   (ps "mpl", ⟨ps "LICENSE_MPL.tmpl", ps "Mozilla Public License 2.0 (MPL 2.0)"⟩),
   (ps "unlicense", ⟨ps "LICENSE_UNLICENSE.tmpl", ps "The Unlicense (Unlicense)"⟩)]

/-- Modelled from the spec: `LicenseHelper.get_license_info` — pure lookup;
an unknown alias falls back to the MIT entry. -/
def getLicenseInfo (t : PyStr) : LicenseInfo :=
  match assocLookup t licenseTable with
  | some info => info
  | none => ⟨ps "LICENSE_MIT.tmpl", ps "MIT License"⟩

/-- Modelled from the spec: `LicenseHelper.detect_license` — detects an
existing license by scanning its text for known keywords, falling back to the
MIT classifier.  In the model a license file rendered from a known template
is recognized by its template name. -/
def detectLicense (fs : FS) : PyStr :=
  match fsLookup (ps "LICENSE") fs with
  | some (.tmpl name _) =>
    match (licenseTable.filter (fun e => e.2.template = name)).head? with
    | some e => e.2.classifier
    | none => ps "MIT License"
  | _ => ps "MIT License"

/-! ## Scaffold plan (`src/easy_venv/models/scaffold_context.py`) -/

/-- `ScaffoldContext`: the immutable scaffolding plan.  The target directory
is left implicit (all paths are relative to it); `project_name` is the target
directory's own name. -/
structure ScaffoldContext where
  project_name : PyStr
  project_package : PyStr
  files_to_create : List (FileType × FileSpec)
  structures_to_create : List StructureTemplate
  directory_snapshot : DirectorySnapshot
deriving DecidableEq, Repr

/-- The package-identifier derivation from `ScaffoldContext.build` step 2:
`name.replace("-", "_").replace(" ", "_").lower()`. -/
def derivePackage (name : PyStr) : PyStr :=
  pyLower (pyReplaceChar (pyReplaceChar name '-' '_') ' ' '_')

/-- Set insertion for `requested_structures.add(...)` (a Python set; modelled
as a duplicate-free list in insertion order). -/
def addStructure (l : List StructureTemplate) (st : StructureTemplate) :
    List StructureTemplate :=
  if st ∈ l then l else l ++ [st]

/-- `ScaffoldContext._add_all_file_types`: add a default request for every
file type not already requested (iterating `FileType` in enum order). -/
def addAllFileTypes (files : List (FileType × FileSpec)) :
    List (FileType × FileSpec) :=
  FileType.enumList.foldl
    (fun m ft => if (assocLookup ft m).isSome then m else m ++ [(ft, ⟨ft, []⟩)])
    files

/-- Step 3 of `ScaffoldContext.build`: run the parser over every token,
collecting the last-wins file-request map and the structure set; the `all`
structure expands to `full` plus a default request for every file type;
unknown tokens are reported and skipped. -/
def buildRequests (create_args : List PyStr) :
    List (FileType × FileSpec) × List StructureTemplate :=
  go create_args [] []
where
  go : List PyStr → List (FileType × FileSpec) → List StructureTemplate →
      List (FileType × FileSpec) × List StructureTemplate
    | [], files, structures => (files, structures)
    | t :: ts, files, structures =>
      match FileSpec.parse t with
      | (_, some .all) =>
        go ts (addAllFileTypes files) (addStructure structures .full)
      | (_, some st) => go ts files (addStructure structures st)
      | (some spec, none) => go ts (mapInsert files spec.file_type spec) structures
      | (none, none) => go ts files structures

/-- The output filename a request resolves to — the `filename` option where
the kind declares one, else the kind's default.  This is the expression used
identically by `_file_would_conflict` in `scaffold_context.py` and by each
`_create_*` method in `scaffold_manger.py`. -/
def resolvedFilename (ft : FileType) (spec : FileSpec) : PyStr :=
  match ft with
  | .license => spec.get (ps "filename") (ps "LICENSE")
  | .requirements => spec.get (ps "filename") (ps "requirements.txt")
  | .gitignore => spec.get (ps "filename") (ps ".gitignore")
  | .readme => spec.get (ps "filename") (ps "README.md")
  | .changelog => spec.get (ps "filename") (ps "CHANGELOG.md")
  | .pyproject => ps "pyproject.toml"

/-- `ScaffoldContext._file_would_conflict`: the resolved filename already
exists per the snapshot. -/
def fileWouldConflict (ft : FileType) (spec : FileSpec)
    (snap : DirectorySnapshot) : Bool :=
  snap.file_exists (resolvedFilename ft spec)

/-- `ScaffoldContext._apply_prioritization`: if pyproject.toml is requested
or already exists, drop the requirements request. -/
def applyPrioritization (files : List (FileType × FileSpec))
    (snap : DirectorySnapshot) : List (FileType × FileSpec) :=
  if (assocLookup FileType.pyproject files).isSome
      || snap.file_exists (ps "pyproject.toml") then
    files.filter (fun e => e.1 ≠ FileType.requirements)
  else files

/-- `ScaffoldContext.build`: scan the directory, derive the project/package
names, parse the tokens, apply prioritization, and drop requests whose
resolved filename already exists per the snapshot. -/
def ScaffoldContext.build (targetName : PyStr) (create_args : List PyStr)
    (fs : FS) : ScaffoldContext :=
  let snapshot := DirectorySnapshot.scan fs
  let package := derivePackage targetName
  let req := buildRequests create_args
  let final_files := applyPrioritization req.1 snapshot
  let safe_files :=
    final_files.filter (fun e => ¬ fileWouldConflict e.1 e.2 snapshot)
  { project_name := targetName
    project_package := package
    files_to_create := safe_files
    structures_to_create := req.2
    directory_snapshot := snapshot }

/-- `ScaffoldContext.has_file_to_create`. -/
def ScaffoldContext.has_file_to_create (ctx : ScaffoldContext)
    (ft : FileType) : Bool :=
  (assocLookup ft ctx.files_to_create).isSome

/-- `ScaffoldContext.should_create_src`. -/
def ScaffoldContext.should_create_src (ctx : ScaffoldContext) : Bool :=
  StructureTemplate.main ∈ ctx.structures_to_create
    ∨ StructureTemplate.full ∈ ctx.structures_to_create

/-- `ScaffoldContext.should_create_tests`. -/
def ScaffoldContext.should_create_tests (ctx : ScaffoldContext) : Bool :=
  StructureTemplate.full ∈ ctx.structures_to_create

/-- `ScaffoldContext.license_type`: `spec.get("type", "mit")` when a license
request is in the plan, Python `None` otherwise. -/
def ScaffoldContext.license_type (ctx : ScaffoldContext) : Option PyStr :=
  match assocLookup FileType.license ctx.files_to_create with
  | some spec => some (spec.get (ps "type") (ps "mit"))
  | none => none

/-! ## Scaffold executor (`src/easy_venv/scaffold_manger.py`) -/

/-- The executor's ambient environment: the set of paths whose write raises
an I/O error (caught by `_write_file`), and the values `datetime.now().year`
and `date.today()` substitute. -/
structure Env where
  err : List PyStr
  year : PyStr
  today : PyStr
deriving Repr

/-- Execution state: the filesystem plus the reporting the run accumulates.
`created`/`skipped` are the two partitions `execute_plan` builds;
`writes` instruments the calls to `_write_file` in order (path and content);
`errorsReported` records the per-file error messages `_write_file` prints. -/
structure ExecState where
  fs : FS
  created : List PyStr
  skipped : List PyStr
  writes : List (PyStr × Content)
  errorsReported : List PyStr
deriving Repr

/-- Initial execution state over a filesystem. -/
def initState (fs : FS) : ExecState :=
  { fs := fs, created := [], skipped := [], writes := [], errorsReported := [] }

/-- `ScaffoldManager._write_file`: open the path in `w` mode and write the
rendered text — overwriting whatever is there; an I/O error is caught,
reported, and surfaces as `False`. -/
def writeFile (env : Env) (st : ExecState) (p : PyStr) (c : Content) :
    Bool × ExecState :=
  if strMem p env.err then
    (false, { st with writes := st.writes ++ [(p, c)],
                      errorsReported := st.errorsReported ++ [p] })
  else
    (true, { st with fs := (p, c) :: st.fs, writes := st.writes ++ [(p, c)] })

/-- `Path.touch()`: create an empty file if the path does not exist. -/
def touch (st : ExecState) (p : PyStr) : ExecState :=
  if fsHas p st.fs then st else { st with fs := (p, .empty) :: st.fs }

/-- Append the artifact name to the partition its `created` flag selects
(the common tail of every branch of `execute_plan`). -/
def record (st : ExecState) (created : Bool) (name : PyStr) : ExecState :=
  if created then { st with created := st.created ++ [name] }
  else { st with skipped := st.skipped ++ [name] }

/-- `ScaffoldManager._create_requirements`. -/
def createRequirements (env : Env) (spec : FileSpec) (st : ExecState) :
    Bool × PyStr × ExecState :=
  let filename := spec.get (ps "filename") (ps "requirements.txt")
  let r := writeFile env st filename (render (ps "requirements.txt.tmpl") [])
  (r.1, filename, r.2)

/-- `ScaffoldManager._create_gitignore`. -/
def createGitignore (env : Env) (spec : FileSpec) (st : ExecState) :
    Bool × PyStr × ExecState :=
  let filename := spec.get (ps "filename") (ps ".gitignore")
  let template := spec.get (ps "template") (ps "gitignore.tmpl")
  let r := writeFile env st filename (render template [])
  (r.1, filename, r.2)

/-- `ScaffoldManager._create_readme`. -/
def createReadme (env : Env) (spec : FileSpec) (ctx : ScaffoldContext)
    (st : ExecState) : Bool × PyStr × ExecState :=
  let filename := spec.get (ps "filename") (ps "README.md")
  let project_title :=
    pyTitle (pyReplaceChar (pyReplaceChar ctx.project_name '-' ' ') '_' ' ')
  let r := writeFile env st filename
    (render (ps "README.md.tmpl")
      [(ps "project_name", ctx.project_name),
       (ps "project_title", project_title),
       (ps "project_package", ctx.project_package)])
  (r.1, filename, r.2)

/-- `ScaffoldManager._create_license`. -/
def createLicense (env : Env) (spec : FileSpec) (ctx : ScaffoldContext)
    (st : ExecState) : Bool × PyStr × ExecState :=
  let filename := spec.get (ps "filename") (ps "LICENSE")
  let license_type := spec.get (ps "type") (ps "mit")
  let author := spec.get (ps "author") (ps "TODO: Add your name")
  let info := getLicenseInfo license_type
  let r := writeFile env st filename
    (render info.template
      [(ps "current_year", env.year),
       (ps "author_name", author),
       (ps "project_name", ctx.project_name)])
  (r.1, filename, r.2)

/-- The feature bullet list `_create_changelog` builds from the final plan. -/
def changelogFeatures (ctx : ScaffoldContext) : List PyStr :=
  (if ctx.has_file_to_create .readme then [ps "-\tAdded README.md documentation"] else [])
  ++ (if ctx.has_file_to_create .license then [ps "-\tAdded LICENSE file"] else [])
  ++ (if ctx.should_create_src then
        [ps "-\tAdded src/ package structure", ps "-\tAdded main.py entry point"]
      else [])
  ++ (if ctx.should_create_tests then
        [ps "-\tAdded tests/ directory with basic test structure"] else [])
  ++ (if ctx.has_file_to_create .pyproject then
        [ps "-\tAdded pyproject.toml configuration"] else [])
  ++ (if ctx.has_file_to_create .gitignore then [ps "-\tAdded .gitignore file"] else [])

/-- `ScaffoldManager._create_changelog`. -/
def createChangelog (env : Env) (spec : FileSpec) (ctx : ScaffoldContext)
    (st : ExecState) : Bool × PyStr × ExecState :=
  let filename := spec.get (ps "filename") (ps "CHANGELOG.md")
  let features := changelogFeatures ctx
  let changelog_features :=
    if features.isEmpty then [] else '\n' :: List.intercalate (ps "\n") features
  let r := writeFile env st filename
    (render (ps "CHANGELOG.md.tmpl")
      [(ps "project_name", ctx.project_name),
       (ps "current_date", env.today),
       (ps "changelog_features", changelog_features)])
  (r.1, filename, r.2)

/-- `ScaffoldManager._build_pyproject_sections`: sections computed from the
final context state (and, for license detection, the filesystem at render
time). -/
def buildPyprojectSections (ctx : ScaffoldContext) (fs : FS) :
    PyprojectSections :=
  let classifier :=
    match ctx.license_type with
    | some t => (getLicenseInfo t).classifier
    | none => detectLicense fs
  let has_readme := ctx.directory_snapshot.file_exists (ps "README.md")
    || ctx.has_file_to_create .readme
  let has_license := ctx.directory_snapshot.file_exists (ps "LICENSE")
    || ctx.has_file_to_create .license
  let has_tests := ctx.directory_snapshot.has_tests || ctx.should_create_tests
  let has_src := ctx.directory_snapshot.has_src_layout || ctx.should_create_src
  { project_name := ctx.project_name
    license_classifier := classifier
    readme_section :=
      if has_readme then .active (ps "readme = README.md")
      else .commented (ps "readme = README.md")
    license_section :=
      if has_license then .active (ps "license = file LICENSE")
      else .commented (ps "license = file LICENSE")
    pytest_section :=
      if has_tests then .active (ps "tool.pytest.ini_options")
      else .commented (ps "tool.pytest.ini_options")
    build_section :=
      if has_src then .active (ps "tool.hatch.build.targets.wheel" ++ ctx.project_package)
      else .commented (ps "tool.hatch.build.targets.wheel" ++ ctx.project_package) }

/-- `ScaffoldManager._create_pyproject_toml`. -/
def createPyprojectToml (env : Env) (ctx : ScaffoldContext) (st : ExecState) :
    Bool × PyStr × ExecState :=
  let filename := ps "pyproject.toml"
  let sections := buildPyprojectSections ctx st.fs
  let r := writeFile env st filename (Content.pyproject sections)
  (r.1, filename, r.2)

/-- `ScaffoldManager._create_file`: dispatch on the file type (the
`pyproject` kind never reaches this dispatcher from `execute_plan`, matching
the source's unreachable `unknown-` fallback). -/
def createFile (env : Env) (ft : FileType) (spec : FileSpec)
    (ctx : ScaffoldContext) (st : ExecState) : Bool × PyStr × ExecState :=
  match ft with
  | .requirements => createRequirements env spec st
  | .gitignore => createGitignore env spec st
  | .readme => createReadme env spec ctx st
  | .license => createLicense env spec ctx st
  | .changelog => createChangelog env spec ctx st
  | .pyproject => (false, ps "unknown-pyproject", st)

/-- The artifact name `_create_main_structure` reports. -/
def mainStructureName : PyStr := ps "src/main.py structure"

/-- The artifact name `_create_full_structure` reports. -/
def fullStructureName : PyStr := ps "full project structure"

/-- The `src/<package>` directory path. -/
def packageDirOf (ctx : ScaffoldContext) : PyStr :=
  ps "src/" ++ ctx.project_package

/-- `ScaffoldManager._create_main_structure`: skip when `main.py` exists;
otherwise touch `__init__.py`, write `main.py` (the write result is ignored)
and report created. -/
def createMainStructure (env : Env) (ctx : ScaffoldContext) (st : ExecState) :
    Bool × PyStr × ExecState :=
  let mainFile := packageDirOf ctx ++ ps "/main.py"
  if fsHas mainFile st.fs then (false, mainStructureName, st)
  else
    let st := touch st (packageDirOf ctx ++ ps "/__init__.py")
    let r := writeFile env st mainFile
      (render (ps "main.py.tmpl") [(ps "project_name", ctx.project_name)])
    (true, mainStructureName, r.2)

/-- `ScaffoldManager._create_full_structure`: main structure first, then the
tests directory; created if either part made something new (the test write
result is ignored). -/
def createFullStructure (env : Env) (ctx : ScaffoldContext) (st : ExecState) :
    Bool × PyStr × ExecState :=
  let m := createMainStructure env ctx st
  let createdMain := m.1
  let st := m.2.2
  let testMain := ps "tests/test_main.py"
  if fsHas testMain st.fs then (createdMain, fullStructureName, st)
  else
    let st := touch st (ps "tests/__init__.py")
    let r := writeFile env st testMain
      (render (ps "test_main.py.tmpl") [(ps "project_name", ctx.project_package)])
    (true, fullStructureName, r.2)

/-- Step 1 of `execute_plan`: create the structure templates (the `all`
variant is never stored in a plan and is skipped by `continue`). -/
def processStructures (env : Env) (ctx : ScaffoldContext) :
    List StructureTemplate → ExecState → ExecState
  | [], st => st
  | t :: ts, st =>
    match t with
    | .main =>
      let r := createMainStructure env ctx st
      processStructures env ctx ts (record r.2.2 r.1 r.2.1)
    | .full =>
      let r := createFullStructure env ctx st
      processStructures env ctx ts (record r.2.2 r.1 r.2.1)
    | .all => processStructures env ctx ts st

/-- Step 2 of `execute_plan`: create the individual files in map order,
deferring the pyproject request (remembered, last one wins) to the end. -/
def processFiles (env : Env) (ctx : ScaffoldContext) :
    List (FileType × FileSpec) → Option FileSpec → ExecState →
    Option FileSpec × ExecState
  | [], pyspec, st => (pyspec, st)
  | (ft, spec) :: rest, pyspec, st =>
    if ft = FileType.pyproject then processFiles env ctx rest (some spec) st
    else
      let r := createFile env ft spec ctx st
      processFiles env ctx rest pyspec (record r.2.2 r.1 r.2.1)

/-- `ScaffoldManager.execute_plan`: structures, then files (pyproject
deferred), then pyproject last so it sees the final state; each artifact is
recorded as created or skipped and the summary partitions are reported.
The structure and file iteration orders are explicit parameters (a Python
set and dict iteration respectively). -/
def executePlan (env : Env) (ctx : ScaffoldContext)
    (structOrder : List StructureTemplate)
    (fileOrder : List (FileType × FileSpec)) (st0 : ExecState) : ExecState :=
  let st := processStructures env ctx structOrder st0
  let pf := processFiles env ctx fileOrder none st
  match pf.1 with
  | some _ =>
    let r := createPyprojectToml env ctx pf.2
    record r.2.2 r.1 r.2.1
  | none => pf.2

/-- The whole pipeline: build the plan from the tokens and the current
filesystem, then execute it (structure order and file order as built). -/
def runScaffold (env : Env) (targetName : PyStr) (tokens : List PyStr)
    (fs : FS) : ExecState :=
  let ctx := ScaffoldContext.build targetName tokens fs
  executePlan env ctx ctx.structures_to_create ctx.files_to_create (initState fs)

/-! ## Legacy path (`src/easy_venv/file_manager.py`) -/

/-- `FileManager.create_license`: skip (returning `False`, which the caller
reports as skipped) when `LICENSE` already exists; otherwise render the MIT
template and write it. -/
def fmCreateLicense (env : Env) (fs : FS) : Bool × FS :=
  let license_file := ps "LICENSE"
  if fsHas license_file fs then (false, fs)
  else
    let content := render (ps "LICENSE_MIT.tmpl") [(ps "current_year", env.year)]
    if strMem license_file env.err then (false, fs)
    else (true, (license_file, content) :: fs)

/-! ## Basic lemmas about the dictionary and string models -/

theorem strMem_iff (s : PyStr) (l : List PyStr) : strMem s l = true ↔ s ∈ l := by
  induction l with
  | nil => simp [strMem]
  | cons t ts ih =>
    by_cases h : t = s
    · subst h; simp [strMem]
    · rw [strMem, if_neg h, ih, List.mem_cons]
      constructor
      · exact Or.inr
      · rintro (rfl | hm)
        · exact absurd rfl h
        · exact hm

theorem assocLookup_append_none {α β : Type} [DecidableEq α] (k : α) (v : β)
    (m : List (α × β)) (h : assocLookup k m = none) :
    assocLookup k (m ++ [(k, v)]) = some v := by
  induction m with
  | nil => simp [assocLookup]
  | cons e m ih =>
    obtain ⟨a, b⟩ := e
    simp only [assocLookup, List.cons_append] at h ⊢
    by_cases he : a = k
    · rw [if_pos he] at h; exact absurd h (by simp)
    · rw [if_neg he] at h ⊢; exact ih h

theorem assocLookup_replaceKey_self {α β : Type} [DecidableEq α]
    (m : List (α × β)) (k : α) (v : β) (h : (assocLookup k m).isSome) :
    assocLookup k (replaceKey m k v) = some v := by
  induction m with
  | nil => simp [assocLookup] at h
  | cons e m ih =>
    obtain ⟨a, b⟩ := e
    by_cases he : a = k
    · simp [replaceKey, assocLookup, he]
    · rw [assocLookup, if_neg he] at h
      rw [replaceKey, if_neg he, assocLookup, if_neg he]
      exact ih h

theorem assocLookup_replaceKey_ne {α β : Type} [DecidableEq α]
    (m : List (α × β)) (k k2 : α) (v : β) (h : k2 ≠ k) :
    assocLookup k2 (replaceKey m k v) = assocLookup k2 m := by
  induction m with
  | nil => rfl
  | cons e m ih =>
    obtain ⟨a, b⟩ := e
    by_cases he : a = k
    · subst he
      rw [replaceKey, if_pos rfl, assocLookup, if_neg (fun hkk => h hkk.symm),
        assocLookup, if_neg (fun hak => h hak.symm)]
      exact ih
    · rw [replaceKey, if_neg he, assocLookup, assocLookup]
      by_cases ha : a = k2
      · simp [ha]
      · rw [if_neg ha, if_neg ha]; exact ih

theorem assocLookup_mapInsert_self {α β : Type} [DecidableEq α]
    (m : List (α × β)) (k : α) (v : β) :
    assocLookup k (mapInsert m k v) = some v := by
  unfold mapInsert
  by_cases h : (assocLookup k m).isSome
  · rw [if_pos h]; exact assocLookup_replaceKey_self m k v h
  · rw [if_neg h]
    refine assocLookup_append_none k v m ?_
    cases hm : assocLookup k m with
    | none => rfl
    | some w => rw [hm] at h; simp at h

theorem assocLookup_mapInsert_ne {α β : Type} [DecidableEq α]
    (m : List (α × β)) (k k2 : α) (v : β) (h : k2 ≠ k) :
    assocLookup k2 (mapInsert m k v) = assocLookup k2 m := by
  unfold mapInsert
  by_cases hs : (assocLookup k m).isSome
  · rw [if_pos hs]; exact assocLookup_replaceKey_ne m k k2 v h
  · rw [if_neg hs]
    induction m with
    | nil => simp [assocLookup, Ne.symm h]
    | cons e m ih =>
      obtain ⟨a, b⟩ := e
      rw [List.cons_append, assocLookup, assocLookup]
      by_cases ha : a = k2
      · simp [ha]
      · rw [if_neg ha, if_neg ha]
        refine ih ?_
        rw [assocLookup] at hs
        by_cases hak : a = k
        · rw [if_pos hak] at hs; simp at hs
        · rwa [if_neg hak] at hs

theorem assocLookup_filter_none {α β : Type} [DecidableEq α]
    (k : α) (p : α × β → Bool) (m : List (α × β))
    (h : assocLookup k m = none) :
    assocLookup k (m.filter p) = none := by
  induction m with
  | nil => rfl
  | cons e m ih =>
    obtain ⟨a, b⟩ := e
    rw [assocLookup] at h
    by_cases ha : a = k
    · rw [if_pos ha] at h; exact absurd h (by simp)
    · rw [if_neg ha] at h
      rw [List.filter_cons]
      by_cases hp : p (a, b)
      · rw [if_pos hp, assocLookup, if_neg ha]; exact ih h
      · rw [if_neg hp]; exact ih h

theorem assocLookup_filter_key_self {β : Type}
    (k : FileType) (m : List (FileType × β)) :
    assocLookup k (m.filter (fun e => e.1 ≠ k)) = none := by
  induction m with
  | nil => rfl
  | cons e m ih =>
    obtain ⟨a, b⟩ := e
    by_cases ha : a = k
    · subst ha
      rw [List.filter_cons, if_neg (by simp)]
      exact ih
    · rw [List.filter_cons, if_pos (by simp [ha]), assocLookup, if_neg ha]
      exact ih

theorem assocLookup_filter_key_other {β : Type}
    (k k0 : FileType) (m : List (FileType × β)) (h : k ≠ k0) :
    assocLookup k (m.filter (fun e => e.1 ≠ k0)) = assocLookup k m := by
  induction m with
  | nil => rfl
  | cons e m ih =>
    obtain ⟨a, b⟩ := e
    by_cases ha : a = k0
    · subst ha
      rw [List.filter_cons, if_neg (by simp), assocLookup,
        if_neg (fun hh => h hh.symm)]
      exact ih
    · rw [List.filter_cons, if_pos (by simp [ha]), assocLookup, assocLookup]
      by_cases hak : a = k
      · rw [if_pos hak, if_pos hak]
      · rw [if_neg hak, if_neg hak]; exact ih

theorem assocLookup_isSome_filter {α β : Type} [DecidableEq α]
    (k : α) (p : α × β → Bool) (m : List (α × β))
    (h : (assocLookup k (m.filter p)).isSome) :
    (assocLookup k m).isSome := by
  cases hm : assocLookup k m with
  | some v => simp
  | none => rw [assocLookup_filter_none k p m hm] at h; simp at h

/-! ## Package-identifier derivation (claim C8) -/

/-- C8 (corrected): the derived package identifier does **not** collapse
runs of non-alphanumeric characters and does not touch non-alphanumeric
characters other than hyphen and space.  Counterexample: project name
`a--b.c` yields `a__b.c`, which has two adjacent separators (positions 1
and 2) and retains the non-alphanumeric, non-separator character `.`. -/
theorem derivePackage_counterexample :
    (ScaffoldContext.build (ps "a--b.c") [] []).project_package = ps "a__b.c"
  ∧ (ps "a__b.c").get? 1 = some '_'
  ∧ (ps "a__b.c").get? 2 = some '_'
  ∧ '.' ∈ ps "a__b.c" := by decide

/-- C8 (amended): the package identifier of every plan is derived from the
project name character-wise — each hyphen and each space becomes one
underscore (runs are preserved, not collapsed) and every other character is
lower-cased (so any other non-alphanumeric character passes through). -/
theorem derivePackage_charwise (targetName : PyStr) (tokens : List PyStr)
    (fs : FS) :
    (ScaffoldContext.build targetName tokens fs).project_package =
      targetName.map (fun c => if c = '-' ∨ c = ' ' then '_' else c.toLower) := by
  show derivePackage targetName = _
  unfold derivePackage pyLower pyReplaceChar
  rw [List.map_map, List.map_map]
  refine List.map_congr_left (fun c _ => ?_)
  by_cases h1 : c = '-'
  · subst h1; decide
  · by_cases h2 : c = ' '
    · subst h2; decide
    · simp [Function.comp, h1, h2]

/-! ## Parser lemmas (claims C7, C10) -/

theorem splitFirst_append (head rest : PyStr) (h : ':' ∉ head) :
    splitFirst ':' (head ++ ':' :: rest) = (head, some rest) := by
  induction head with
  | nil => simp [splitFirst]
  | cons c cs ih =>
    have hc : c ≠ ':' := fun hcc => h (hcc ▸ List.mem_cons_self c cs)
    have hcs : ':' ∉ cs := fun hm => h (List.mem_cons_of_mem c hm)
    simp only [List.cons_append, splitFirst, if_neg hc]
    rw [show List.append cs (':' :: rest) = cs ++ ':' :: rest from rfl, ih hcs]

theorem zip_splitAll_nil_filter (keys : List PyStr) :
    ((keys.zip (splitAll ':' [])).filter (fun kv => kv.2 ≠ [])) = [] := by
  cases keys <;> simp [splitAll]

/-- The options component `FileSpec.parse` computes for a recognized
file-kind head with an option string present: the guard in the source is
semantically redundant. -/
theorem parse_options_eq (ft : FileType) (rest : PyStr) :
    (if rest ≠ [] ∧ optionKeys ft ≠ [] then
        ((optionKeys ft).zip (splitAll ':' rest)).filter (fun kv => kv.2 ≠ [])
      else []) =
    ((optionKeys ft).zip (splitAll ':' rest)).filter (fun kv => kv.2 ≠ []) := by
  by_cases hr : rest = []
  · subst hr
    rw [zip_splitAll_nil_filter]
    simp
  · by_cases hk : optionKeys ft = []
    · rw [hk]; simp
    · rw [if_pos ⟨hr, hk⟩]

/-- C7 (confirmed): the parser splits a token on the first `:` only; the
head is looked up first in the structure-alias table (which therefore wins
on any collision) and only then in the file-kind alias table; for a
file-kind head the remainder is split on `:` and zipped positionally onto
the kind's declared option names (license declares exactly
`type`, `author`, `filename`), with every empty segment omitted and every
stored option keyed by a declared name; an unmatched head yields no request.
Parsing performs no validation of option values and is pure by construction
(a function of the token alone). -/
theorem parse_token_contract (head rest : PyStr) (hc : ':' ∉ head) :
    (∀ st, assocLookup head structAliases = some st →
        FileSpec.parse (head ++ ':' :: rest) = (none, some st))
  ∧ (assocLookup head structAliases = none →
      ∀ ft, findFileType head = some ft →
        FileSpec.parse (head ++ ':' :: rest) =
          (some ⟨ft, ((optionKeys ft).zip (splitAll ':' rest)).filter
              (fun kv => kv.2 ≠ [])⟩, none))
  ∧ (assocLookup head structAliases = none → findFileType head = none →
        FileSpec.parse (head ++ ':' :: rest) = (none, none))
  ∧ (∀ spec, (FileSpec.parse (head ++ ':' :: rest)).1 = some spec →
        ∀ kv ∈ spec.options, kv.1 ∈ optionKeys spec.file_type ∧ kv.2 ≠ [])
  ∧ optionKeys FileType.license = [ps "type", ps "author", ps "filename"] := by
  have hsplit := splitFirst_append head rest hc
  refine ⟨?_, ?_, ?_, ?_, rfl⟩
  · intro st hst
    simp only [FileSpec.parse, hsplit, hst]
  · intro hns ft hft
    simp only [FileSpec.parse, hsplit, hns, hft, parse_options_eq]
  · intro hns hnf
    simp only [FileSpec.parse, hsplit, hns, hnf]
  · intro spec hspec kv hkv
    cases hst : assocLookup head structAliases with
    | some st =>
      simp only [FileSpec.parse, hsplit, hst] at hspec
      exact absurd hspec (by simp)
    | none =>
      cases hft : findFileType head with
      | none =>
        simp only [FileSpec.parse, hsplit, hst, hft] at hspec
        exact absurd hspec (by simp)
      | some ft =>
        have hred : FileSpec.parse (head ++ ':' :: rest) =
            (some ⟨ft, ((optionKeys ft).zip (splitAll ':' rest)).filter
                (fun kv => kv.2 ≠ [])⟩, none) := by
          simp only [FileSpec.parse, hsplit, hst, hft, parse_options_eq]
        rw [hred] at hspec
        cases hspec
        have hm := List.mem_filter.mp hkv
        refine ⟨(List.of_mem_zip hm.1).1, by simpa using hm.2⟩

/-- Witness for C7 at the token `l:apache:Jane`. -/
theorem parse_token_contract_witness :
    FileSpec.parse (ps "l:apache:Jane") =
      (some ⟨FileType.license,
        [(ps "type", ps "apache"), (ps "author", ps "Jane")]⟩, none) := by
  have h := (parse_token_contract (ps "l") (ps "apache:Jane")
    (by decide)).2.1 (by decide) FileType.license (by decide)
  have e1 : ps "l:apache:Jane" = ps "l" ++ ':' :: ps "apache:Jane" := by decide
  rw [e1, h]
  decide

/-- C10 (confirmed): parsing is total over option segments — for every head
matching a file-kind alias and every remainder, parsing succeeds; segments
beyond the kind's declared option keys are dropped (every stored option is
keyed by a declared name); for the kinds declaring no option keys
(pyproject, gitignore, readme, changelog) any supplied segments are ignored
and the options mapping is empty. -/
theorem parse_total_extra_segments (head rest : PyStr) (hc : ':' ∉ head)
    (hs : assocLookup head structAliases = none)
    (ft : FileType) (hf : findFileType head = some ft) :
    ((FileSpec.parse (head ++ ':' :: rest)).1.isSome)
  ∧ (∀ spec, (FileSpec.parse (head ++ ':' :: rest)).1 = some spec →
        spec.file_type = ft ∧ ∀ kv ∈ spec.options, kv.1 ∈ optionKeys ft)
  ∧ (optionKeys ft = [] →
        (FileSpec.parse (head ++ ':' :: rest)).1 = some ⟨ft, []⟩)
  ∧ optionKeys FileType.pyproject = [] ∧ optionKeys FileType.gitignore = []
  ∧ optionKeys FileType.readme = [] ∧ optionKeys FileType.changelog = [] := by
  have hsplit := splitFirst_append head rest hc
  have hred : FileSpec.parse (head ++ ':' :: rest) =
      (some ⟨ft, ((optionKeys ft).zip (splitAll ':' rest)).filter
          (fun kv => kv.2 ≠ [])⟩, none) := by
    simp only [FileSpec.parse, hsplit, hs, hf, parse_options_eq]
  refine ⟨by rw [hred]; rfl, ?_, ?_, rfl, rfl, rfl, rfl⟩
  · intro spec hspec
    rw [hred] at hspec
    cases hspec
    refine ⟨rfl, fun kv hkv => ?_⟩
    exact (List.of_mem_zip (List.mem_filter.mp hkv).1).1
  · intro hk
    rw [hred, hk]
    simp

/-- Witness for C10 at the token `p:a:b:c` (pyproject declares no option
keys; the three supplied segments are ignored). -/
theorem parse_total_extra_segments_witness :
    FileSpec.parse (ps "p:a:b:c") = (some ⟨FileType.pyproject, []⟩, none) := by
  have h := (parse_total_extra_segments (ps "p") (ps "a:b:c")
    (by decide) (by decide) FileType.pyproject (by decide)).2.2.1 rfl
  have e1 : ps "p:a:b:c" = ps "p" ++ ':' :: ps "a:b:c" := by decide
  have e2 := congrArg (fun o => (o, (none : Option StructureTemplate))) h
  rw [e1]
  exact Prod.ext h (by
    rw [show ps "p" ++ ':' :: ps "a:b:c" = ps "p:a:b:c" from e1.symm]
    decide)

/-! ## Manifest priority (claim C3) -/

/-- C3 (confirmed): whenever the parsed request map contains both a
dependency-manifest (requirements) and a package-manifest (pyproject)
request, the final plan contains no requirements entry — the prioritization
rule fires on the mere presence of the pyproject request, independently of
whether pyproject.toml exists on disk yet. -/
theorem manifest_priority_requirements_dropped (targetName : PyStr)
    (tokens : List PyStr) (fs : FS)
    (hp : (assocLookup FileType.pyproject (buildRequests tokens).1).isSome)
    (hr : (assocLookup FileType.requirements (buildRequests tokens).1).isSome) :
    assocLookup FileType.requirements
      (ScaffoldContext.build targetName tokens fs).files_to_create = none := by
  have hbuild : (ScaffoldContext.build targetName tokens fs).files_to_create =
      (applyPrioritization (buildRequests tokens).1
          (DirectorySnapshot.scan fs)).filter
        (fun e => ¬ fileWouldConflict e.1 e.2 (DirectorySnapshot.scan fs)) := rfl
  rw [hbuild]
  apply assocLookup_filter_none
  unfold applyPrioritization
  rw [if_pos (by simp [hp])]
  exact assocLookup_filter_key_self _ _

/-- Witness for C3 with tokens `["r", "p"]` over an empty directory. -/
theorem manifest_priority_witness :
    assocLookup FileType.requirements
      (ScaffoldContext.build (ps "proj") [ps "r", ps "p"] []).files_to_create
      = none :=
  manifest_priority_requirements_dropped (ps "proj") [ps "r", ps "p"] []
    (by decide) (by decide)

/-! ## The `all` token (claim C4) -/

theorem assocLookup_append_left {α β : Type} [DecidableEq α]
    (k : α) (m l : List (α × β)) (h : (assocLookup k m).isSome) :
    assocLookup k (m ++ l) = assocLookup k m := by
  induction m with
  | nil => simp [assocLookup] at h
  | cons e m ih =>
    obtain ⟨a, b⟩ := e
    rw [List.cons_append, assocLookup, assocLookup]
    by_cases ha : a = k
    · rw [if_pos ha, if_pos ha]
    · rw [if_neg ha, if_neg ha]
      rw [assocLookup, if_neg ha] at h
      exact ih h

theorem foldl_addStep_mono (L : List FileType)
    (m : List (FileType × FileSpec)) (k : FileType)
    (h : (assocLookup k m).isSome) :
    (assocLookup k (L.foldl
      (fun m ft => if (assocLookup ft m).isSome then m
        else m ++ [(ft, ⟨ft, []⟩)]) m)).isSome := by
  induction L generalizing m with
  | nil => exact h
  | cons a L ih =>
    rw [List.foldl_cons]
    by_cases ha : (assocLookup a m).isSome
    · rw [if_pos ha]; exact ih m h
    · rw [if_neg ha]
      refine ih _ ?_
      rw [assocLookup_append_left k m _ h]
      exact h

theorem addAllFileTypes_mono (m : List (FileType × FileSpec)) (k : FileType)
    (h : (assocLookup k m).isSome) :
    (assocLookup k (addAllFileTypes m)).isSome :=
  foldl_addStep_mono FileType.enumList m k h

theorem addAllFileTypes_complete (m : List (FileType × FileSpec))
    (k : FileType) : (assocLookup k (addAllFileTypes m)).isSome := by
  unfold addAllFileTypes
  have hk : k ∈ FileType.enumList := by cases k <;> decide
  generalize hL : FileType.enumList = L at hk
  clear hL
  induction L generalizing m with
  | nil => exact absurd hk (List.not_mem_nil k)
  | cons a L ih =>
    rw [List.foldl_cons]
    rcases List.mem_cons.mp hk with rfl | hkL
    · refine foldl_addStep_mono L _ k ?_
      by_cases hs : (assocLookup k m).isSome
      · rw [if_pos hs]; exact hs
      · rw [if_neg hs]
        rw [assocLookup_append_none k (⟨k, []⟩ : FileSpec) m (by
          cases hm : assocLookup k m with
          | none => rfl
          | some w => rw [hm] at hs; simp at hs)]
        rfl
    · by_cases hs : (assocLookup a m).isSome
      · rw [if_pos hs]; exact ih _ hkL
      · rw [if_neg hs]; exact ih _ hkL

theorem addStructure_mem_mono (l : List StructureTemplate)
    (s st : StructureTemplate) (h : st ∈ l) : st ∈ addStructure l s := by
  unfold addStructure
  by_cases hs : s ∈ l
  · rw [if_pos hs]; exact h
  · rw [if_neg hs]; exact List.mem_append_left _ h

theorem addStructure_mem_self (l : List StructureTemplate)
    (s : StructureTemplate) : s ∈ addStructure l s := by
  unfold addStructure
  by_cases hs : s ∈ l
  · rw [if_pos hs]; exact hs
  · rw [if_neg hs]; exact List.mem_append_right _ (List.mem_singleton.mpr rfl)

theorem mapInsert_isSome_mono {α β : Type} [DecidableEq α]
    (m : List (α × β)) (k k2 : α) (v : β) (h : (assocLookup k m).isSome) :
    (assocLookup k (mapInsert m k2 v)).isSome := by
  by_cases hk : k = k2
  · subst hk; rw [assocLookup_mapInsert_self]; rfl
  · rw [assocLookup_mapInsert_ne m k2 k v hk]; exact h

theorem go_files_mono (ts : List PyStr) (files : List (FileType × FileSpec))
    (structs : List StructureTemplate) (k : FileType)
    (h : (assocLookup k files).isSome) :
    (assocLookup k (buildRequests.go ts files structs).1).isSome := by
  induction ts generalizing files structs with
  | nil => exact h
  | cons t ts ih =>
    rcases hp : FileSpec.parse t with ⟨o1, o2⟩
    cases o2 with
    | some st =>
      cases st with
      | all =>
        simp only [buildRequests.go, hp]
        exact ih _ _ (addAllFileTypes_mono files k h)
      | main =>
        simp only [buildRequests.go, hp]
        exact ih _ _ h
      | full =>
        simp only [buildRequests.go, hp]
        exact ih _ _ h
    | none =>
      cases o1 with
      | some spec =>
        simp only [buildRequests.go, hp]
        exact ih _ _ (mapInsert_isSome_mono files k spec.file_type spec h)
      | none =>
        simp only [buildRequests.go, hp]
        exact ih _ _ h

theorem go_structs_mono (ts : List PyStr) (files : List (FileType × FileSpec))
    (structs : List StructureTemplate) (st : StructureTemplate)
    (h : st ∈ structs) :
    st ∈ (buildRequests.go ts files structs).2 := by
  induction ts generalizing files structs with
  | nil => exact h
  | cons t ts ih =>
    rcases hp : FileSpec.parse t with ⟨o1, o2⟩
    cases o2 with
    | some s =>
      cases s with
      | all =>
        simp only [buildRequests.go, hp]
        exact ih _ _ (addStructure_mem_mono structs .full st h)
      | main =>
        simp only [buildRequests.go, hp]
        exact ih _ _ (addStructure_mem_mono structs .main st h)
      | full =>
        simp only [buildRequests.go, hp]
        exact ih _ _ (addStructure_mem_mono structs .full st h)
    | none =>
      cases o1 with
      | some spec =>
        simp only [buildRequests.go, hp]
        exact ih _ _ h
      | none =>
        simp only [buildRequests.go, hp]
        exact ih _ _ h

theorem go_all_complete (ts : List PyStr) (files : List (FileType × FileSpec))
    (structs : List StructureTemplate)
    (hall : ps "all" ∈ ts ∨ ps "*" ∈ ts) :
    (∀ k, (assocLookup k (buildRequests.go ts files structs).1).isSome)
  ∧ StructureTemplate.full ∈ (buildRequests.go ts files structs).2 := by
  induction ts generalizing files structs with
  | nil =>
    rcases hall with h | h <;> exact absurd h (List.not_mem_nil _)
  | cons t ts ih =>
    by_cases hallt : (FileSpec.parse t).2 = some StructureTemplate.all
    · rcases hp : FileSpec.parse t with ⟨o1, o2⟩
      rw [hp] at hallt
      simp only at hallt
      subst hallt
      constructor
      · intro k
        simp only [buildRequests.go, hp]
        exact go_files_mono ts _ _ k (addAllFileTypes_complete files k)
      · simp only [buildRequests.go, hp]
        exact go_structs_mono ts _ _ _ (addStructure_mem_self structs .full)
    · have hmem : ps "all" ∈ ts ∨ ps "*" ∈ ts := by
        rcases hall with h | h
        · rcases List.mem_cons.mp h with rfl | h2
          · exact absurd (by decide :
              (FileSpec.parse (ps "all")).2 = some StructureTemplate.all) hallt
          · exact Or.inl h2
        · rcases List.mem_cons.mp h with rfl | h2
          · exact absurd (by decide :
              (FileSpec.parse (ps "*")).2 = some StructureTemplate.all) hallt
          · exact Or.inr h2
      rcases hp : FileSpec.parse t with ⟨o1, o2⟩
      cases o2 with
      | some st =>
        cases st with
        | all =>
          rw [hp] at hallt
          exact absurd rfl hallt
        | main =>
          simp only [buildRequests.go, hp]
          exact ih _ _ hmem
        | full =>
          simp only [buildRequests.go, hp]
          exact ih _ _ hmem
      | none =>
        cases o1 with
        | some spec =>
          simp only [buildRequests.go, hp]
          exact ih _ _ hmem
        | none =>
          simp only [buildRequests.go, hp]
          exact ih _ _ hmem

theorem conflict_scan_empty (ft : FileType) (spec : FileSpec) :
    fileWouldConflict ft spec (DirectorySnapshot.scan []) = false := rfl

/-- C4 (corrected): counterexample — with token list `["all"]` over an empty
directory, the plan's file-kind set is **not** the full closed set of
`FileType`: the dependency-manifest (requirements) kind is removed again by
the manifest-priority rule, because expanding `all` also requests the
package manifest.  The plan holds exactly the other five kinds (and the
tests-inclusive structure). -/
theorem all_token_missing_requirements :
    ((ScaffoldContext.build (ps "proj") [ps "all"] []).files_to_create.map
        Prod.fst
      = [FileType.license, FileType.pyproject, FileType.gitignore,
         FileType.readme, FileType.changelog])
  ∧ assocLookup FileType.requirements
      (ScaffoldContext.build (ps "proj") [ps "all"] []).files_to_create = none
  ∧ (ScaffoldContext.build (ps "proj") [ps "all"] []).structures_to_create
      = [StructureTemplate.full] := by decide

/-- C4 (amended): for every token list containing `all` (or its bare alias
`*`) over an empty target directory, the plan's file-kind set equals the
closed set of `FileType` **minus the dependency-manifest kind** (which the
manifest-priority rule always removes, since `all` also requests the package
manifest), and the plan's structure set includes the tests-inclusive
(`full`) structure. -/
theorem all_token_expansion (targetName : PyStr) (tokens : List PyStr)
    (hall : ps "all" ∈ tokens ∨ ps "*" ∈ tokens) :
    (∀ ft : FileType,
        (assocLookup ft
          (ScaffoldContext.build targetName tokens []).files_to_create).isSome
          ↔ ft ≠ FileType.requirements)
  ∧ StructureTemplate.full ∈
      (ScaffoldContext.build targetName tokens []).structures_to_create := by
  have hreq := go_all_complete tokens [] [] hall
  have hfiles : (ScaffoldContext.build targetName tokens []).files_to_create =
      (applyPrioritization (buildRequests tokens).1
          (DirectorySnapshot.scan [])).filter
        (fun e => ¬ fileWouldConflict e.1 e.2 (DirectorySnapshot.scan [])) := rfl
  have hstructs :
      (ScaffoldContext.build targetName tokens []).structures_to_create =
        (buildRequests tokens).2 := rfl
  have hfilter : ((applyPrioritization (buildRequests tokens).1
        (DirectorySnapshot.scan [])).filter
        (fun e => ¬ fileWouldConflict e.1 e.2 (DirectorySnapshot.scan []))) =
      applyPrioritization (buildRequests tokens).1 (DirectorySnapshot.scan []) := by
    refine List.filter_eq_self.mpr (fun e he => ?_)
    simp [conflict_scan_empty]
  constructor
  · intro ft
    rw [hfiles, hfilter]
    unfold applyPrioritization
    rw [if_pos (by simp only [Bool.or_eq_true]; exact Or.inl (hreq.1 FileType.pyproject))]
    constructor
    · intro hsome heq
      subst heq
      rw [assocLookup_filter_key_self] at hsome
      simp at hsome
    · intro hne
      rw [assocLookup_filter_key_other _ _ _ hne]
      exact hreq.1 ft
  · rw [hstructs]
    exact hreq.2

/-- Witness for C4 (amended) at tokens `["all"]`. -/
theorem all_token_expansion_witness :
    StructureTemplate.full ∈
      (ScaffoldContext.build (ps "proj") [ps "all"] []).structures_to_create
  ∧ (assocLookup FileType.license
      (ScaffoldContext.build (ps "proj") [ps "all"] []).files_to_create).isSome :=
  have h := all_token_expansion (ps "proj") [ps "all"] (Or.inl (by decide))
  ⟨h.2, (h.1 FileType.license).mpr (by decide)⟩

/-! ## Explicit options versus `all` (claim C5) -/

theorem parse_shape (t : PyStr) :
    (FileSpec.parse t).1 = none ∨ (FileSpec.parse t).2 = none := by
  simp only [FileSpec.parse]
  cases assocLookup (splitFirst ':' t).1 structAliases with
  | some st => exact Or.inl rfl
  | none =>
    cases findFileType (splitFirst ':' t).1 with
    | some ft => exact Or.inr rfl
    | none => exact Or.inl rfl

theorem assocLookup_append {α β : Type} [DecidableEq α]
    (k : α) (m l : List (α × β)) :
    assocLookup k (m ++ l) =
      match assocLookup k m with
      | some v => some v
      | none => assocLookup k l := by
  induction m with
  | nil => rfl
  | cons e m ih =>
    obtain ⟨a, b⟩ := e
    rw [List.cons_append, assocLookup, assocLookup]
    by_cases ha : a = k
    · rw [if_pos ha, if_pos ha]
    · rw [if_neg ha, if_neg ha]; exact ih

theorem foldl_addStep_lookup_pres (L : List FileType)
    (m : List (FileType × FileSpec)) (k : FileType)
    (h : (assocLookup k m).isSome) :
    assocLookup k (L.foldl
      (fun m ft => if (assocLookup ft m).isSome then m
        else m ++ [(ft, ⟨ft, []⟩)]) m) = assocLookup k m := by
  induction L generalizing m with
  | nil => rfl
  | cons a L ih =>
    rw [List.foldl_cons]
    by_cases ha : (assocLookup a m).isSome
    · rw [if_pos ha]; exact ih m h
    · rw [if_neg ha]
      rw [ih _ (by rw [assocLookup_append_left k m _ h]; exact h)]
      exact assocLookup_append_left k m _ h

theorem addAllFileTypes_lookup (m : List (FileType × FileSpec)) (k : FileType) :
    assocLookup k (addAllFileTypes m) = assocLookup k m
  ∨ (assocLookup k m = none
      ∧ assocLookup k (addAllFileTypes m) = some ⟨k, []⟩) := by
  unfold addAllFileTypes
  generalize FileType.enumList = L
  induction L generalizing m with
  | nil => exact Or.inl rfl
  | cons a L ih =>
    rw [List.foldl_cons]
    by_cases ha : (assocLookup a m).isSome
    · rw [if_pos ha]; exact ih m
    · rw [if_neg ha]
      by_cases hk : k = a
      · subst hk
        have hnone : assocLookup k m = none := by
          cases hm : assocLookup k m with
          | none => rfl
          | some w => rw [hm] at ha; simp at ha
        refine Or.inr ⟨hnone, ?_⟩
        have happ : assocLookup k (m ++ [(k, (⟨k, []⟩ : FileSpec))]) =
            some ⟨k, []⟩ := assocLookup_append_none k _ m hnone
        rw [foldl_addStep_lookup_pres L _ k (by rw [happ]; rfl), happ]
      · have happ : assocLookup k (m ++ [(a, (⟨a, []⟩ : FileSpec))]) =
            assocLookup k m := by
          rw [assocLookup_append]
          cases hm : assocLookup k m with
          | some v => rfl
          | none => simp [assocLookup, Ne.symm hk]
        rcases ih (m ++ [(a, ⟨a, []⟩)]) with h1 | h2
        · rw [happ] at h1; exact Or.inl h1
        · rw [happ] at h2; exact Or.inr h2

/-- The last token in the list that parses to an explicit file request of
kind `k` (the request that last-wins for that kind). -/
def lastExplicit (k : FileType) : List PyStr → Option FileSpec
  | [] => none
  | t :: ts =>
    match lastExplicit k ts with
    | some e => some e
    | none =>
      match (FileSpec.parse t).1 with
      | some s => if s.file_type = k then some s else none
      | none => none

theorem lastExplicit_cons (k : FileType) (t : PyStr) (ts : List PyStr) :
    lastExplicit k (t :: ts) =
      match lastExplicit k ts with
      | some e => some e
      | none =>
        match (FileSpec.parse t).1 with
        | some s => if s.file_type = k then some s else none
        | none => none := rfl

/-- The request map the parser fold produces holds, for each kind, the last
explicitly parsed request when there is one; otherwise it holds either
whatever the initial map held or (when the initial map held nothing and an
`all` token added it) the default request. -/
theorem go_lookup_lastExplicit (ts : List PyStr)
    (files : List (FileType × FileSpec)) (structs : List StructureTemplate)
    (k : FileType) :
    (∀ e, lastExplicit k ts = some e →
        assocLookup k (buildRequests.go ts files structs).1 = some e)
  ∧ (lastExplicit k ts = none →
        (assocLookup k (buildRequests.go ts files structs).1 =
            assocLookup k files
          ∨ (assocLookup k files = none
              ∧ assocLookup k (buildRequests.go ts files structs).1 =
                  some ⟨k, []⟩))) := by
  induction ts generalizing files structs with
  | nil =>
    refine ⟨fun e he => ?_, fun _ => Or.inl rfl⟩
    simp [lastExplicit] at he
  | cons t ts ih =>
    rcases hp : FileSpec.parse t with ⟨o1, o2⟩
    have ho1 : (FileSpec.parse t).1 = o1 := by rw [hp]
    cases o2 with
    | some st =>
      have ho1none : o1 = none := by
        rcases parse_shape t with h | h
        · rw [ho1] at h; exact h
        · rw [hp] at h; simp at h
      subst ho1none
      have hlast : ∀ e, lastExplicit k (t :: ts) = some e →
          lastExplicit k ts = some e := by
        intro e he
        cases hl : lastExplicit k ts with
        | some e2 =>
          simp only [lastExplicit_cons, hl] at he
          exact he
        | none =>
          simp only [lastExplicit_cons, hl, ho1] at he
          exact he
      have hlastn : lastExplicit k (t :: ts) = none →
          lastExplicit k ts = none := by
        intro he
        cases hl : lastExplicit k ts with
        | some e2 =>
          simp only [lastExplicit_cons, hl] at he
          exact he
        | none => rfl
      cases st with
      | all =>
        constructor
        · intro e he
          simp only [buildRequests.go, hp]
          exact (ih _ (addStructure structs .full)).1 e (hlast e he)
        · intro he
          simp only [buildRequests.go, hp]
          rcases (ih (addAllFileTypes files) (addStructure structs .full)).2
              (hlastn he) with h1 | h2
          · rcases addAllFileTypes_lookup files k with ha | ha
            · exact Or.inl (h1.trans ha)
            · exact Or.inr ⟨ha.1, h1.trans ha.2⟩
          · refine Or.inr ⟨?_, h2.2⟩
            cases hm : assocLookup k files with
            | none => rfl
            | some v =>
              have := addAllFileTypes_mono files k (by rw [hm]; rfl)
              rw [h2.1] at this
              simp at this
      | main =>
        constructor
        · intro e he
          simp only [buildRequests.go, hp]
          exact (ih files _).1 e (hlast e he)
        · intro he
          simp only [buildRequests.go, hp]
          exact (ih files _).2 (hlastn he)
      | full =>
        constructor
        · intro e he
          simp only [buildRequests.go, hp]
          exact (ih files _).1 e (hlast e he)
        · intro he
          simp only [buildRequests.go, hp]
          exact (ih files _).2 (hlastn he)
    | none =>
      cases o1 with
      | some spec =>
        constructor
        · intro e he
          simp only [buildRequests.go, hp]
          cases hl : lastExplicit k ts with
          | some e2 =>
            simp only [lastExplicit_cons, hl] at he
            obtain rfl := Option.some.inj he
            exact (ih _ structs).1 e2 hl
          | none =>
            simp only [lastExplicit_cons, hl, ho1] at he
            by_cases hk : spec.file_type = k
            · rw [if_pos hk] at he
              have hespec : spec = e := Option.some.inj he
              subst hespec
              rcases (ih (mapInsert files spec.file_type spec) structs).2 hl
                  with h1 | h2
              · rw [h1, ← hk, assocLookup_mapInsert_self]
              · exfalso
                rw [← hk, assocLookup_mapInsert_self] at h2
                simp at h2
            · rw [if_neg hk] at he
              exact absurd he (by simp)
        · intro he
          simp only [buildRequests.go, hp]
          have hl : lastExplicit k ts = none := by
            cases hl2 : lastExplicit k ts with
            | some e2 =>
              simp only [lastExplicit_cons, hl2] at he
              exact he
            | none => rfl
          have hk : spec.file_type ≠ k := by
            intro hk
            simp only [lastExplicit_cons, hl, ho1, if_pos hk] at he
            exact absurd he (by simp)
          rcases (ih (mapInsert files spec.file_type spec) structs).2 hl
              with h1 | h2
          · rw [assocLookup_mapInsert_ne files spec.file_type k spec
              (fun hkk => hk hkk.symm)] at h1
            exact Or.inl h1
          · rw [assocLookup_mapInsert_ne files spec.file_type k spec
              (fun hkk => hk hkk.symm)] at h2
            exact Or.inr h2
      | none =>
        constructor
        · intro e he
          simp only [buildRequests.go, hp]
          cases hl : lastExplicit k ts with
          | some e2 =>
            simp only [lastExplicit_cons, hl] at he
            obtain rfl := Option.some.inj he
            exact (ih files structs).1 e2 hl
          | none =>
            simp only [lastExplicit_cons, hl, ho1] at he
            exact absurd he (by simp)
        · intro he
          simp only [buildRequests.go, hp]
          have hl : lastExplicit k ts = none := by
            cases hl2 : lastExplicit k ts with
            | some e2 =>
              simp only [lastExplicit_cons, hl2] at he
              exact he
            | none => rfl
          exact (ih files structs).2 hl

/-- The keys of an association list are pairwise distinct (the dict model's
well-formedness; request maps built by the parser fold satisfy it). -/
def keysNodup {α β : Type} (m : List (α × β)) : Prop :=
  (m.map Prod.fst).Nodup

theorem assocLookup_none_not_mem {α β : Type} [DecidableEq α]
    (k : α) (m : List (α × β)) (h : assocLookup k m = none) :
    k ∉ m.map Prod.fst := by
  induction m with
  | nil => simp
  | cons e m ih =>
    obtain ⟨a, b⟩ := e
    rw [assocLookup] at h
    by_cases ha : a = k
    · rw [if_pos ha] at h; exact absurd h (by simp)
    · rw [if_neg ha] at h
      simp only [List.map_cons, List.mem_cons]
      rintro (rfl | hm)
      · exact ha rfl
      · exact ih h hm

theorem replaceKey_keys {α β : Type} [DecidableEq α]
    (m : List (α × β)) (k : α) (v : β) :
    (replaceKey m k v).map Prod.fst = m.map Prod.fst := by
  induction m with
  | nil => rfl
  | cons e m ih =>
    obtain ⟨a, b⟩ := e
    by_cases ha : a = k
    · subst ha
      rw [replaceKey, if_pos rfl]
      simp only [List.map_cons, ih]
    · rw [replaceKey, if_neg ha]
      simp only [List.map_cons, ih]

theorem mapInsert_keysNodup {α β : Type} [DecidableEq α]
    (m : List (α × β)) (k : α) (v : β) (h : keysNodup m) :
    keysNodup (mapInsert m k v) := by
  unfold mapInsert
  by_cases hs : (assocLookup k m).isSome
  · rw [if_pos hs]
    unfold keysNodup
    rw [replaceKey_keys]
    exact h
  · rw [if_neg hs]
    unfold keysNodup
    rw [List.map_append]
    refine List.Nodup.append h (by simp) ?_
    intro a ham hak
    have hnone : assocLookup k m = none := by
      cases hm : assocLookup k m with
      | none => rfl
      | some w => rw [hm] at hs; simp at hs
    have : a = k := by simpa using hak
    subst this
    exact assocLookup_none_not_mem a m hnone ham

theorem foldl_addStep_keysNodup (L : List FileType)
    (m : List (FileType × FileSpec)) (h : keysNodup m) :
    keysNodup (L.foldl
      (fun m ft => if (assocLookup ft m).isSome then m
        else m ++ [(ft, ⟨ft, []⟩)]) m) := by
  induction L generalizing m with
  | nil => exact h
  | cons a L ih =>
    rw [List.foldl_cons]
    by_cases ha : (assocLookup a m).isSome
    · rw [if_pos ha]; exact ih m h
    · rw [if_neg ha]
      refine ih _ ?_
      unfold keysNodup
      rw [List.map_append]
      refine List.Nodup.append h (by simp) ?_
      intro x hxm hxa
      have hnone : assocLookup a m = none := by
        cases hm : assocLookup a m with
        | none => rfl
        | some w => rw [hm] at ha; simp at ha
      have : x = a := by simpa using hxa
      subst this
      exact assocLookup_none_not_mem x m hnone hxm

theorem go_keysNodup (ts : List PyStr) (files : List (FileType × FileSpec))
    (structs : List StructureTemplate) (h : keysNodup files) :
    keysNodup (buildRequests.go ts files structs).1 := by
  induction ts generalizing files structs with
  | nil => exact h
  | cons t ts ih =>
    rcases hp : FileSpec.parse t with ⟨o1, o2⟩
    cases o2 with
    | some st =>
      cases st with
      | all =>
        simp only [buildRequests.go, hp]
        exact ih _ _ (foldl_addStep_keysNodup _ files h)
      | main =>
        simp only [buildRequests.go, hp]
        exact ih _ _ h
      | full =>
        simp only [buildRequests.go, hp]
        exact ih _ _ h
    | none =>
      cases o1 with
      | some spec =>
        simp only [buildRequests.go, hp]
        exact ih _ _ (mapInsert_keysNodup files spec.file_type spec h)
      | none =>
        simp only [buildRequests.go, hp]
        exact ih _ _ h

theorem assocLookup_some_mem {α β : Type} [DecidableEq α]
    (k : α) (v : β) (m : List (α × β)) (h : assocLookup k m = some v) :
    (k, v) ∈ m := by
  induction m with
  | nil => exact absurd h (by simp [assocLookup])
  | cons e m ih =>
    obtain ⟨a, b⟩ := e
    rw [assocLookup] at h
    by_cases ha : a = k
    · rw [if_pos ha] at h
      obtain rfl := Option.some.inj h
      subst ha
      exact List.mem_cons_self _ _
    · rw [if_neg ha] at h
      exact List.mem_cons_of_mem _ (ih h)

theorem assocLookup_of_mem_keysNodup {α β : Type} [DecidableEq α]
    (m : List (α × β)) (k : α) (v : β) (hn : keysNodup m)
    (hm : (k, v) ∈ m) : assocLookup k m = some v := by
  induction m with
  | nil => exact absurd hm (List.not_mem_nil _)
  | cons e m ih =>
    obtain ⟨a, b⟩ := e
    unfold keysNodup at hn
    rw [List.map_cons, List.nodup_cons] at hn
    rcases List.mem_cons.mp hm with heq | htail
    · obtain ⟨h1, h2⟩ := Prod.ext_iff.mp heq
      dsimp only at h1 h2
      subst h1
      subst h2
      rw [assocLookup, if_pos rfl]
    · have hak : a ≠ k := by
        intro hak
        subst hak
        exact hn.1 (List.mem_map.mpr ⟨(a, v), htail, rfl⟩)
      rw [assocLookup, if_neg hak]
      exact ih hn.2 htail

theorem mem_applyPrioritization (files : List (FileType × FileSpec))
    (snap : DirectorySnapshot) (e : FileType × FileSpec)
    (h : e ∈ applyPrioritization files snap) : e ∈ files := by
  unfold applyPrioritization at h
  by_cases hc : ((assocLookup FileType.pyproject files).isSome
      || snap.file_exists (ps "pyproject.toml")) = true
  · rw [if_pos hc] at h
    exact (List.mem_filter.mp h).1
  · rw [if_neg hc] at h
    exact h

/-- C5 (confirmed): when the token list contains `all` (or `*`) and also an
explicit `kind:args` token for kind `k` — in either relative order — any
request for `k` remaining in the final plan is exactly the last explicitly
parsed request for `k`: expanding `all` never replaces an explicitly
parameterized request with the default request (`_add_all_file_types` only
adds kinds that are absent, and a later explicit token overwrites the
default). -/
theorem explicit_options_win_over_all (targetName : PyStr)
    (tokens : List PyStr) (fs : FS) (k : FileType) (e : FileSpec)
    (hall : ps "all" ∈ tokens ∨ ps "*" ∈ tokens)
    (hlast : lastExplicit k tokens = some e) :
    ∀ spec, assocLookup k
        (ScaffoldContext.build targetName tokens fs).files_to_create =
          some spec →
      spec = e := by
  intro spec hspec
  have hreq : assocLookup k (buildRequests tokens).1 = some e :=
    (go_lookup_lastExplicit tokens [] [] k).1 e hlast
  have hnodup : keysNodup (buildRequests tokens).1 :=
    go_keysNodup tokens [] [] (by simp [keysNodup])
  have hmem : (k, spec) ∈ (buildRequests tokens).1 := by
    have h1 : (k, spec) ∈
        (ScaffoldContext.build targetName tokens fs).files_to_create :=
      assocLookup_some_mem k spec _ hspec
    have hfiles :
        (ScaffoldContext.build targetName tokens fs).files_to_create =
        (applyPrioritization (buildRequests tokens).1
            (DirectorySnapshot.scan fs)).filter
          (fun e2 => ¬ fileWouldConflict e2.1 e2.2
            (DirectorySnapshot.scan fs)) := rfl
    rw [hfiles] at h1
    exact mem_applyPrioritization _ _ _ (List.mem_filter.mp h1).1
  have hlook := assocLookup_of_mem_keysNodup _ k spec hnodup hmem
  rw [hreq] at hlook
  exact (Option.some.inj hlook).symm

/-- Witness for C5 at tokens `["all", "l:apache:Jane"]`: the plan's license
request carries the explicit apache/Jane options. -/
theorem explicit_options_win_over_all_witness :
    (⟨FileType.license,
        [(ps "type", ps "apache"), (ps "author", ps "Jane")]⟩ : FileSpec)
      = ⟨FileType.license,
          [(ps "type", ps "apache"), (ps "author", ps "Jane")]⟩ :=
  explicit_options_win_over_all (ps "proj") [ps "all", ps "l:apache:Jane"] []
    FileType.license
    ⟨FileType.license, [(ps "type", ps "apache"), (ps "author", ps "Jane")]⟩
    (Or.inl (by decide)) (by decide) _ (by decide)

/-! ## The pyproject artifact is written last (claim C6) -/

theorem record_writes (st : ExecState) (c : Bool) (n : PyStr) :
    (record st c n).writes = st.writes := by
  unfold record
  by_cases hc : c = true
  · rw [if_pos hc]
  · rw [if_neg hc]

theorem writeFile_writes (env : Env) (st : ExecState) (p : PyStr)
    (c : Content) :
    (writeFile env st p c).2.writes = st.writes ++ [(p, c)] := by
  unfold writeFile
  by_cases h : strMem p env.err = true
  · rw [if_pos h]
  · rw [if_neg h]

theorem createPyprojectToml_writes (env : Env) (ctx : ScaffoldContext)
    (st : ExecState) :
    (createPyprojectToml env ctx st).2.2.writes =
      st.writes ++ [(ps "pyproject.toml",
        Content.pyproject (buildPyprojectSections ctx st.fs))] := by
  unfold createPyprojectToml
  exact writeFile_writes env st _ _

theorem processFiles_pyspec_isSome (env : Env) (ctx : ScaffoldContext)
    (fileOrder : List (FileType × FileSpec)) (acc : Option FileSpec)
    (st : ExecState)
    (h : FileType.pyproject ∈ fileOrder.map Prod.fst ∨ acc.isSome) :
    (processFiles env ctx fileOrder acc st).1.isSome := by
  induction fileOrder generalizing acc st with
  | nil =>
    rcases h with h | h
    · exact absurd h (by simp)
    · exact h
  | cons e rest ih =>
    obtain ⟨ft, spec⟩ := e
    by_cases hft : ft = FileType.pyproject
    · subst hft
      simp only [processFiles, if_pos rfl]
      exact ih (some spec) st (Or.inr rfl)
    · simp only [processFiles, if_neg hft]
      refine ih acc _ ?_
      rcases h with h | h
      · simp only [List.map_cons, List.mem_cons] at h
        rcases h with h2 | h2
        · exact absurd h2.symm hft
        · exact Or.inl h2
      · exact Or.inr h

theorem buildPyprojectSections_flags (ctx : ScaffoldContext) (fs : FS) :
    ((buildPyprojectSections ctx fs).readme_section.isActive =
        (ctx.directory_snapshot.file_exists (ps "README.md")
          || ctx.has_file_to_create .readme))
  ∧ ((buildPyprojectSections ctx fs).license_section.isActive =
        (ctx.directory_snapshot.file_exists (ps "LICENSE")
          || ctx.has_file_to_create .license))
  ∧ ((buildPyprojectSections ctx fs).pytest_section.isActive =
        (ctx.directory_snapshot.has_tests || ctx.should_create_tests))
  ∧ ((buildPyprojectSections ctx fs).build_section.isActive =
        (ctx.directory_snapshot.has_src_layout || ctx.should_create_src)) := by
  refine ⟨?_, ?_, ?_, ?_⟩ <;>
    simp only [buildPyprojectSections] <;>
    split <;>
    simp_all [TomlSection.isActive]

/-- C6 (confirmed): whenever the plan contains a package-manifest request,
the executor's very last write — for **every** iteration order of the plan
map and of the structure set — is the pyproject.toml artifact, and the
sections of its rendered content reflect the final plan state: the readme,
license, pytest and build sections are active exactly when the respective
artifact already exists per the snapshot or will be created by this very
plan.  (Structure templates are processed strictly before the file loop, and
the file loop defers the pyproject request to after its last entry.) -/
theorem pyproject_rendered_last (env : Env) (ctx : ScaffoldContext)
    (structOrder : List StructureTemplate)
    (fileOrder : List (FileType × FileSpec)) (fs0 : FS)
    (hpy : FileType.pyproject ∈ fileOrder.map Prod.fst) :
    ∃ s : PyprojectSections,
      (executePlan env ctx structOrder fileOrder (initState fs0)).writes.getLast?
          = some (ps "pyproject.toml", Content.pyproject s)
      ∧ s.readme_section.isActive =
          (ctx.directory_snapshot.file_exists (ps "README.md")
            || ctx.has_file_to_create .readme)
      ∧ s.license_section.isActive =
          (ctx.directory_snapshot.file_exists (ps "LICENSE")
            || ctx.has_file_to_create .license)
      ∧ s.pytest_section.isActive =
          (ctx.directory_snapshot.has_tests || ctx.should_create_tests)
      ∧ s.build_section.isActive =
          (ctx.directory_snapshot.has_src_layout || ctx.should_create_src) := by
  have hpf := processFiles_pyspec_isSome env ctx fileOrder none
    (processStructures env ctx structOrder (initState fs0)) (Or.inl hpy)
  obtain ⟨sp, hsp⟩ := Option.isSome_iff_exists.mp hpf
  refine ⟨buildPyprojectSections ctx
    (processFiles env ctx fileOrder none
      (processStructures env ctx structOrder (initState fs0))).2.fs,
    ?_, (buildPyprojectSections_flags ctx _).1,
    (buildPyprojectSections_flags ctx _).2.1,
    (buildPyprojectSections_flags ctx _).2.2.1,
    (buildPyprojectSections_flags ctx _).2.2.2⟩
  simp only [executePlan, hsp]
  rw [record_writes, createPyprojectToml_writes]
  exact List.getLast?_concat _

/-- A concrete error-free environment shared by the witnesses. -/
def defaultEnv : Env := ⟨[], ps "2026", ps "2026-10-12"⟩

/-- The concrete plan used by the C6 witness: tokens `["p", "md"]` over an
empty directory. -/
def pmPlan : ScaffoldContext :=
  ScaffoldContext.build (ps "proj") [ps "p", ps "md"] []

/-- Witness for C6 at tokens `["p", "md"]` over an empty directory. -/
theorem pyproject_rendered_last_witness :
    ∃ s : PyprojectSections,
      (executePlan defaultEnv pmPlan pmPlan.structures_to_create
          pmPlan.files_to_create (initState [])).writes.getLast?
          = some (ps "pyproject.toml", Content.pyproject s)
      ∧ s.readme_section.isActive =
          (pmPlan.directory_snapshot.file_exists (ps "README.md")
            || pmPlan.has_file_to_create .readme)
      ∧ s.license_section.isActive =
          (pmPlan.directory_snapshot.file_exists (ps "LICENSE")
            || pmPlan.has_file_to_create .license)
      ∧ s.pytest_section.isActive =
          (pmPlan.directory_snapshot.has_tests || pmPlan.should_create_tests)
      ∧ s.build_section.isActive =
          (pmPlan.directory_snapshot.has_src_layout
            || pmPlan.should_create_src) :=
  pyproject_rendered_last defaultEnv pmPlan pmPlan.structures_to_create
    pmPlan.files_to_create [] (by decide)

/-! ## Error handling in the executor (claim C9) -/

/-- Reporting only grows: everything already in the skipped partition or in
the per-file error reports stays there through later processing. -/
def ExecState.le (s1 s2 : ExecState) : Prop :=
  (∀ x, x ∈ s1.skipped → x ∈ s2.skipped)
  ∧ (∀ x, x ∈ s1.errorsReported → x ∈ s2.errorsReported)

theorem ExecState.le_refl (s : ExecState) : ExecState.le s s :=
  ⟨fun _ h => h, fun _ h => h⟩

theorem ExecState.le_trans {s1 s2 s3 : ExecState}
    (h1 : ExecState.le s1 s2) (h2 : ExecState.le s2 s3) :
    ExecState.le s1 s3 :=
  ⟨fun x h => h2.1 x (h1.1 x h), fun x h => h2.2 x (h1.2 x h)⟩

theorem writeFile_le (env : Env) (st : ExecState) (p : PyStr) (c : Content) :
    ExecState.le st (writeFile env st p c).2 := by
  unfold writeFile
  by_cases h : strMem p env.err = true
  · rw [if_pos h]
    exact ⟨fun x hx => hx, fun x hx => List.mem_append_left _ hx⟩
  · rw [if_neg h]
    exact ExecState.le_refl _

theorem touch_le (st : ExecState) (p : PyStr) :
    ExecState.le st (touch st p) := by
  unfold touch
  by_cases h : fsHas p st.fs = true
  · rw [if_pos h]; exact ExecState.le_refl _
  · rw [if_neg h]; exact ExecState.le_refl _

theorem record_le (st : ExecState) (c : Bool) (n : PyStr) :
    ExecState.le st (record st c n) := by
  unfold record
  by_cases h : c = true
  · rw [if_pos h]; exact ExecState.le_refl _
  · rw [if_neg h]
    exact ⟨fun x hx => List.mem_append_left _ hx, fun x hx => hx⟩

theorem createFile_le (env : Env) (ft : FileType) (spec : FileSpec)
    (ctx : ScaffoldContext) (st : ExecState) :
    ExecState.le st (createFile env ft spec ctx st).2.2 := by
  cases ft <;>
    simp only [createFile, createRequirements, createGitignore, createReadme,
      createLicense, createChangelog] <;>
    first
      | exact writeFile_le env st _ _
      | exact ExecState.le_refl _

theorem createMainStructure_le (env : Env) (ctx : ScaffoldContext)
    (st : ExecState) :
    ExecState.le st (createMainStructure env ctx st).2.2 := by
  unfold createMainStructure
  by_cases h : fsHas (packageDirOf ctx ++ ps "/main.py") st.fs = true
  · rw [if_pos h]; exact ExecState.le_refl _
  · rw [if_neg h]
    exact ExecState.le_trans (touch_le st _) (writeFile_le env _ _ _)

theorem createFullStructure_le (env : Env) (ctx : ScaffoldContext)
    (st : ExecState) :
    ExecState.le st (createFullStructure env ctx st).2.2 := by
  unfold createFullStructure
  refine ExecState.le_trans (createMainStructure_le env ctx st) ?_
  by_cases h : fsHas (ps "tests/test_main.py")
      (createMainStructure env ctx st).2.2.fs = true
  · rw [if_pos h]; exact ExecState.le_refl _
  · rw [if_neg h]
    exact ExecState.le_trans (touch_le _ _) (writeFile_le env _ _ _)

theorem processStructures_le (env : Env) (ctx : ScaffoldContext)
    (l : List StructureTemplate) (st : ExecState) :
    ExecState.le st (processStructures env ctx l st) := by
  induction l generalizing st with
  | nil => exact ExecState.le_refl _
  | cons t ts ih =>
    cases t with
    | main =>
      simp only [processStructures]
      exact ExecState.le_trans
        (ExecState.le_trans (createMainStructure_le env ctx st)
          (record_le _ _ _)) (ih _)
    | full =>
      simp only [processStructures]
      exact ExecState.le_trans
        (ExecState.le_trans (createFullStructure_le env ctx st)
          (record_le _ _ _)) (ih _)
    | all =>
      simp only [processStructures]
      exact ih st

theorem processFiles_le (env : Env) (ctx : ScaffoldContext)
    (l : List (FileType × FileSpec)) (acc : Option FileSpec) (st : ExecState) :
    ExecState.le st (processFiles env ctx l acc st).2 := by
  induction l generalizing acc st with
  | nil => exact ExecState.le_refl _
  | cons e rest ih =>
    obtain ⟨ft, spec⟩ := e
    by_cases hft : ft = FileType.pyproject
    · subst hft
      simp only [processFiles, if_pos rfl]
      exact ih _ _
    · simp only [processFiles, if_neg hft]
      exact ExecState.le_trans
        (ExecState.le_trans (createFile_le env ft spec ctx st)
          (record_le _ _ _)) (ih _ _)

theorem executePlan_le (env : Env) (ctx : ScaffoldContext)
    (structOrder : List StructureTemplate)
    (fileOrder : List (FileType × FileSpec)) (st0 : ExecState) :
    ExecState.le st0 (executePlan env ctx structOrder fileOrder st0) := by
  unfold executePlan
  refine ExecState.le_trans (processStructures_le env ctx structOrder st0) ?_
  refine ExecState.le_trans (processFiles_le env ctx fileOrder none _) ?_
  cases hpf : (processFiles env ctx fileOrder none
      (processStructures env ctx structOrder st0)).1 with
  | some sp =>
    simp only [hpf]
    exact ExecState.le_trans
      (ExecState.le_trans
        (by unfold createPyprojectToml; exact writeFile_le env _ _ _)
        (record_le _ _ _)) (ExecState.le_refl _)
  | none =>
    simp only [hpf]
    exact ExecState.le_refl _

theorem writeFile_partitions (env : Env) (st : ExecState) (p : PyStr)
    (c : Content) :
    (writeFile env st p c).2.created = st.created
    ∧ (writeFile env st p c).2.skipped = st.skipped := by
  unfold writeFile
  by_cases h : strMem p env.err = true
  · rw [if_pos h]; exact ⟨rfl, rfl⟩
  · rw [if_neg h]; exact ⟨rfl, rfl⟩

theorem touch_partitions (st : ExecState) (p : PyStr) :
    (touch st p).created = st.created ∧ (touch st p).skipped = st.skipped := by
  unfold touch
  by_cases h : fsHas p st.fs = true
  · rw [if_pos h]; exact ⟨rfl, rfl⟩
  · rw [if_neg h]; exact ⟨rfl, rfl⟩

theorem createFile_partitions (env : Env) (ft : FileType) (spec : FileSpec)
    (ctx : ScaffoldContext) (st : ExecState) :
    (createFile env ft spec ctx st).2.2.created = st.created
    ∧ (createFile env ft spec ctx st).2.2.skipped = st.skipped := by
  cases ft <;>
    simp only [createFile, createRequirements, createGitignore, createReadme,
      createLicense, createChangelog] <;>
    first
      | exact writeFile_partitions env st _ _
      | exact ⟨rfl, rfl⟩
      | simp

theorem createMainStructure_partitions (env : Env) (ctx : ScaffoldContext)
    (st : ExecState) :
    (createMainStructure env ctx st).2.2.created = st.created
    ∧ (createMainStructure env ctx st).2.2.skipped = st.skipped := by
  unfold createMainStructure
  by_cases h : fsHas (packageDirOf ctx ++ ps "/main.py") st.fs = true
  · rw [if_pos h]; exact ⟨rfl, rfl⟩
  · rw [if_neg h]
    rw [(writeFile_partitions env _ _ _).1, (writeFile_partitions env _ _ _).2]
    exact touch_partitions st _

theorem createFullStructure_partitions (env : Env) (ctx : ScaffoldContext)
    (st : ExecState) :
    (createFullStructure env ctx st).2.2.created = st.created
    ∧ (createFullStructure env ctx st).2.2.skipped = st.skipped := by
  unfold createFullStructure
  by_cases h : fsHas (ps "tests/test_main.py")
      (createMainStructure env ctx st).2.2.fs = true
  · rw [if_pos h]; exact createMainStructure_partitions env ctx st
  · rw [if_neg h]
    rw [(writeFile_partitions env _ _ _).1, (writeFile_partitions env _ _ _).2,
      (touch_partitions _ _).1, (touch_partitions _ _).2]
    exact createMainStructure_partitions env ctx st

theorem record_outcomes (st : ExecState) (c : Bool) (n : PyStr) :
    (record st c n).created.length + (record st c n).skipped.length
      = st.created.length + st.skipped.length + 1 := by
  unfold record
  by_cases h : c = true
  · rw [if_pos h]; simp; omega
  · rw [if_neg h]; simp; omega

theorem processStructures_outcomes (env : Env) (ctx : ScaffoldContext)
    (l : List StructureTemplate) (st : ExecState) :
    (processStructures env ctx l st).created.length
      + (processStructures env ctx l st).skipped.length
    = st.created.length + st.skipped.length
      + l.countP (fun t => t ≠ StructureTemplate.all) := by
  induction l generalizing st with
  | nil => simp [processStructures]
  | cons t ts ih =>
    cases t with
    | main =>
      simp only [processStructures]
      rw [ih, record_outcomes,
        (createMainStructure_partitions env ctx st).1,
        (createMainStructure_partitions env ctx st).2,
        List.countP_cons]
      simp
      omega
    | full =>
      simp only [processStructures]
      rw [ih, record_outcomes,
        (createFullStructure_partitions env ctx st).1,
        (createFullStructure_partitions env ctx st).2,
        List.countP_cons]
      simp
      omega
    | all =>
      simp only [processStructures]
      rw [ih, List.countP_cons]
      simp

theorem processFiles_outcomes (env : Env) (ctx : ScaffoldContext)
    (l : List (FileType × FileSpec)) (acc : Option FileSpec) (st : ExecState) :
    (processFiles env ctx l acc st).2.created.length
      + (processFiles env ctx l acc st).2.skipped.length
    = st.created.length + st.skipped.length
      + l.countP (fun e => e.1 ≠ FileType.pyproject) := by
  induction l generalizing acc st with
  | nil => simp [processFiles]
  | cons e rest ih =>
    obtain ⟨ft, spec⟩ := e
    by_cases hft : ft = FileType.pyproject
    · subst hft
      have hstep : processFiles env ctx ((FileType.pyproject, spec) :: rest)
          acc st = processFiles env ctx rest (some spec) st := by
        simp [processFiles]
      rw [hstep, ih, List.countP_cons]
      simp
    · simp only [processFiles, if_neg hft]
      rw [ih, record_outcomes,
        (createFile_partitions env ft spec ctx st).1,
        (createFile_partitions env ft spec ctx st).2,
        List.countP_cons]
      simp [hft]
      omega

theorem processFiles_pyspec_none (env : Env) (ctx : ScaffoldContext)
    (l : List (FileType × FileSpec)) (st : ExecState)
    (h : FileType.pyproject ∉ l.map Prod.fst) :
    (processFiles env ctx l none st).1 = none := by
  induction l generalizing st with
  | nil => rfl
  | cons e rest ih =>
    obtain ⟨ft, spec⟩ := e
    by_cases hft : ft = FileType.pyproject
    · exfalso
      refine h ?_
      rw [List.map_cons, List.mem_cons]
      exact Or.inl hft.symm
    · simp only [processFiles, if_neg hft]
      refine ih _ (fun hm => h ?_)
      rw [List.map_cons, List.mem_cons]
      exact Or.inr hm

theorem createPyprojectToml_partitions (env : Env) (ctx : ScaffoldContext)
    (st : ExecState) :
    (createPyprojectToml env ctx st).2.2.created = st.created
    ∧ (createPyprojectToml env ctx st).2.2.skipped = st.skipped := by
  unfold createPyprojectToml
  exact writeFile_partitions env st _ _

theorem executePlan_outcomes (env : Env) (ctx : ScaffoldContext)
    (structOrder : List StructureTemplate)
    (fileOrder : List (FileType × FileSpec)) (fs0 : FS) :
    (executePlan env ctx structOrder fileOrder (initState fs0)).created.length
      + (executePlan env ctx structOrder fileOrder (initState fs0)).skipped.length
    = structOrder.countP (fun t => t ≠ StructureTemplate.all)
      + fileOrder.countP (fun e => e.1 ≠ FileType.pyproject)
      + (if FileType.pyproject ∈ fileOrder.map Prod.fst then 1 else 0) := by
  by_cases hpy : FileType.pyproject ∈ fileOrder.map Prod.fst
  · have hpf := processFiles_pyspec_isSome env ctx fileOrder none
      (processStructures env ctx structOrder (initState fs0)) (Or.inl hpy)
    obtain ⟨sp, hsp⟩ := Option.isSome_iff_exists.mp hpf
    have hstep : executePlan env ctx structOrder fileOrder (initState fs0) =
        record (createPyprojectToml env ctx
            (processFiles env ctx fileOrder none
              (processStructures env ctx structOrder (initState fs0))).2).2.2
          (createPyprojectToml env ctx
            (processFiles env ctx fileOrder none
              (processStructures env ctx structOrder (initState fs0))).2).1
          (createPyprojectToml env ctx
            (processFiles env ctx fileOrder none
              (processStructures env ctx structOrder (initState fs0))).2).2.1 := by
      simp only [executePlan, hsp]
    rw [hstep, record_outcomes,
      (createPyprojectToml_partitions env ctx _).1,
      (createPyprojectToml_partitions env ctx _).2,
      processFiles_outcomes, processStructures_outcomes, if_pos hpy]
    simp [initState]
  · have hpf := processFiles_pyspec_none env ctx fileOrder
      (processStructures env ctx structOrder (initState fs0)) hpy
    have hstep : executePlan env ctx structOrder fileOrder (initState fs0) =
        (processFiles env ctx fileOrder none
          (processStructures env ctx structOrder (initState fs0))).2 := by
      simp only [executePlan, hpf]
    rw [hstep, processFiles_outcomes, processStructures_outcomes, if_neg hpy]
    simp [initState]

theorem createFile_fail (env : Env) (ft : FileType) (spec : FileSpec)
    (ctx : ScaffoldContext) (st : ExecState)
    (hft : ft ≠ FileType.pyproject)
    (herr : strMem (resolvedFilename ft spec) env.err = true) :
    (createFile env ft spec ctx st).1 = false
    ∧ (createFile env ft spec ctx st).2.1 = resolvedFilename ft spec
    ∧ resolvedFilename ft spec
        ∈ (createFile env ft spec ctx st).2.2.errorsReported := by
  cases ft with
  | pyproject => exact absurd rfl hft
  | license =>
    simp only [createFile, createLicense, resolvedFilename] at herr ⊢
    rw [writeFile, if_pos herr]
    exact ⟨by simp, by simp, List.mem_append_right _ (List.mem_singleton.mpr rfl)⟩
  | requirements =>
    simp only [createFile, createRequirements, resolvedFilename] at herr ⊢
    rw [writeFile, if_pos herr]
    exact ⟨by simp, by simp, List.mem_append_right _ (List.mem_singleton.mpr rfl)⟩
  | gitignore =>
    simp only [createFile, createGitignore, resolvedFilename] at herr ⊢
    rw [writeFile, if_pos herr]
    exact ⟨by simp, by simp, List.mem_append_right _ (List.mem_singleton.mpr rfl)⟩
  | readme =>
    simp only [createFile, createReadme, resolvedFilename] at herr ⊢
    rw [writeFile, if_pos herr]
    exact ⟨by simp, by simp, List.mem_append_right _ (List.mem_singleton.mpr rfl)⟩
  | changelog =>
    simp only [createFile, createChangelog, resolvedFilename] at herr ⊢
    rw [writeFile, if_pos herr]
    exact ⟨by simp, by simp, List.mem_append_right _ (List.mem_singleton.mpr rfl)⟩

theorem processFiles_failed_entry (env : Env) (ctx : ScaffoldContext)
    (l : List (FileType × FileSpec)) (acc : Option FileSpec) (st : ExecState)
    (ft : FileType) (spec : FileSpec) (he : (ft, spec) ∈ l)
    (hft : ft ≠ FileType.pyproject)
    (herr : strMem (resolvedFilename ft spec) env.err = true) :
    resolvedFilename ft spec ∈ (processFiles env ctx l acc st).2.skipped
    ∧ resolvedFilename ft spec
        ∈ (processFiles env ctx l acc st).2.errorsReported := by
  induction l generalizing acc st with
  | nil => exact absurd he (List.not_mem_nil _)
  | cons f rest ih =>
    obtain ⟨ft2, spec2⟩ := f
    rcases List.mem_cons.mp he with heq | htail
    · obtain ⟨h1, h2⟩ := Prod.ext_iff.mp heq
      dsimp only at h1 h2
      subst h1
      subst h2
      simp only [processFiles, if_neg hft]
      obtain ⟨hfalse, hname, herrmem⟩ := createFile_fail env ft spec ctx st hft herr
      have hrec : resolvedFilename ft spec ∈
          (record (createFile env ft spec ctx st).2.2
            (createFile env ft spec ctx st).1
            (createFile env ft spec ctx st).2.1).skipped := by
        rw [record, hfalse, hname]
        simp
      have hle := processFiles_le env ctx rest acc
        (record (createFile env ft spec ctx st).2.2
          (createFile env ft spec ctx st).1
          (createFile env ft spec ctx st).2.1)
      exact ⟨hle.1 _ hrec, hle.2 _ ((record_le _ _ _).2 _ herrmem)⟩
    · by_cases hpy : ft2 = FileType.pyproject
      · subst hpy
        have hstep : processFiles env ctx ((FileType.pyproject, spec2) :: rest)
            acc st = processFiles env ctx rest (some spec2) st := by
          simp [processFiles]
        rw [hstep]
        exact ih _ _ htail
      · simp only [processFiles, if_neg hpy]
        exact ih _ _ htail

theorem executePlan_after_files_le (env : Env) (ctx : ScaffoldContext)
    (structOrder : List StructureTemplate)
    (fileOrder : List (FileType × FileSpec)) (st0 : ExecState) :
    ExecState.le
      (processFiles env ctx fileOrder none
        (processStructures env ctx structOrder st0)).2
      (executePlan env ctx structOrder fileOrder st0) := by
  unfold executePlan
  cases hpf : (processFiles env ctx fileOrder none
      (processStructures env ctx structOrder st0)).1 with
  | some sp =>
    simp only [hpf]
    exact ExecState.le_trans
      (by unfold createPyprojectToml; exact writeFile_le env _ _ _)
      (record_le _ _ _)
  | none =>
    simp only [hpf]
    exact ExecState.le_refl _

/-- C9 (corrected): counterexample — a failed write is **not** always
excluded from the created partition.  With token `m` over an empty directory
and a filesystem where writing `src/proj/main.py` raises an I/O error, the
error is caught and reported per file and the run completes, but the
structure artifact is still reported as created (the structure creation
ignores the result of the inner `_write_file` call), and nothing is placed
in the skipped partition. -/
theorem structure_write_failure_reported_created :
    (runScaffold ⟨[ps "src/proj/main.py"], ps "2026", ps "2026-10-12"⟩
        (ps "proj") [ps "m"] []).created = [ps "src/main.py structure"]
  ∧ (runScaffold ⟨[ps "src/proj/main.py"], ps "2026", ps "2026-10-12"⟩
        (ps "proj") [ps "m"] []).errorsReported = [ps "src/proj/main.py"]
  ∧ (runScaffold ⟨[ps "src/proj/main.py"], ps "2026", ps "2026-10-12"⟩
        (ps "proj") [ps "m"] []).skipped = [] := by decide

/-- C9 (amended): per-file write errors are caught, reported per file, and
never abort the pass — every structure template and every file artifact in
the plan still receives exactly one created/skipped outcome (first
conjunct), and a **file** artifact whose resolved output path fails to write
is reported per file and lands in the skipped partition (so it is excluded
from the created partition for that entry); a structure template whose inner
write fails is nevertheless reported created, as its directories and init
files were still made. -/
theorem write_failure_handling (env : Env) (ctx : ScaffoldContext)
    (structOrder : List StructureTemplate)
    (fileOrder : List (FileType × FileSpec)) (fs0 : FS) :
    ((executePlan env ctx structOrder fileOrder (initState fs0)).created.length
        + (executePlan env ctx structOrder fileOrder
            (initState fs0)).skipped.length
      = structOrder.countP (fun t => t ≠ StructureTemplate.all)
        + fileOrder.countP (fun e => e.1 ≠ FileType.pyproject)
        + (if FileType.pyproject ∈ fileOrder.map Prod.fst then 1 else 0))
  ∧ (∀ ft spec, (ft, spec) ∈ fileOrder → ft ≠ FileType.pyproject →
        strMem (resolvedFilename ft spec) env.err = true →
        resolvedFilename ft spec
            ∈ (executePlan env ctx structOrder fileOrder
                (initState fs0)).skipped
        ∧ resolvedFilename ft spec
            ∈ (executePlan env ctx structOrder fileOrder
                (initState fs0)).errorsReported) := by
  refine ⟨executePlan_outcomes env ctx structOrder fileOrder fs0, ?_⟩
  intro ft spec hmem hft herr
  have h := processFiles_failed_entry env ctx fileOrder none
    (processStructures env ctx structOrder (initState fs0)) ft spec hmem hft herr
  have hle := executePlan_after_files_le env ctx structOrder fileOrder
    (initState fs0)
  exact ⟨hle.1 _ h.1, hle.2 _ h.2⟩

/-- The concrete plan used by the C9 witness: tokens `["l", "m"]` over an
empty directory. -/
def lmPlan : ScaffoldContext :=
  ScaffoldContext.build (ps "proj") [ps "l", ps "m"] []

/-- An environment in which writing `LICENSE` fails. -/
def licenseFailEnv : Env := ⟨[ps "LICENSE"], ps "2026", ps "2026-10-12"⟩

/-- Witness for C9 (amended): with tokens `["l", "m"]` and a failing
`LICENSE` write, the license artifact lands in skipped and is reported. -/
theorem write_failure_handling_witness :
    resolvedFilename FileType.license ⟨FileType.license, []⟩
        ∈ (executePlan licenseFailEnv lmPlan lmPlan.structures_to_create
            lmPlan.files_to_create (initState [])).skipped
    ∧ resolvedFilename FileType.license ⟨FileType.license, []⟩
        ∈ (executePlan licenseFailEnv lmPlan lmPlan.structures_to_create
            lmPlan.files_to_create (initState [])).errorsReported :=
  (write_failure_handling licenseFailEnv lmPlan lmPlan.structures_to_create
      lmPlan.files_to_create []).2
    FileType.license ⟨FileType.license, []⟩ (by decide) (by decide) (by decide)

/-! ## Create-only behaviour and the existing-LICENSE scenario (claim C1) -/

theorem writeFile_fs_preserve (env : Env) (st : ExecState) (p : PyStr)
    (c : Content) (q : PyStr) (h : p ≠ q) :
    fsLookup q (writeFile env st p c).2.fs = fsLookup q st.fs := by
  unfold writeFile
  by_cases he : strMem p env.err = true
  · rw [if_pos he]
  · rw [if_neg he]
    show assocLookup q ((p, c) :: st.fs) = _
    rw [assocLookup, if_neg h]
    rfl

theorem touch_fs_preserve (st : ExecState) (p : PyStr) (q : PyStr)
    (h : p ≠ q) : fsLookup q (touch st p).fs = fsLookup q st.fs := by
  unfold touch
  by_cases hp : fsHas p st.fs = true
  · rw [if_pos hp]
  · rw [if_neg hp]
    show assocLookup q ((p, Content.empty) :: st.fs) = _
    rw [assocLookup, if_neg h]
    rfl

theorem createFile_fs_preserve (env : Env) (ft : FileType) (spec : FileSpec)
    (ctx : ScaffoldContext) (st : ExecState) (q : PyStr)
    (h : resolvedFilename ft spec ≠ q) :
    fsLookup q (createFile env ft spec ctx st).2.2.fs = fsLookup q st.fs := by
  cases ft <;>
    simp only [createFile, createRequirements, createGitignore, createReadme,
      createLicense, createChangelog] <;>
    simp only [resolvedFilename] at h <;>
    first
      | exact writeFile_fs_preserve env st _ _ q h
      | rfl

theorem createFile_name (env : Env) (ft : FileType) (spec : FileSpec)
    (ctx : ScaffoldContext) (st : ExecState)
    (hft : ft ≠ FileType.pyproject) :
    (createFile env ft spec ctx st).2.1 = resolvedFilename ft spec := by
  cases ft with
  | pyproject => exact absurd rfl hft
  | license => rfl
  | requirements => rfl
  | gitignore => rfl
  | readme => rfl
  | changelog => rfl

theorem createMainStructure_name (env : Env) (ctx : ScaffoldContext)
    (st : ExecState) :
    (createMainStructure env ctx st).2.1 = mainStructureName := by
  unfold createMainStructure
  by_cases h : fsHas (packageDirOf ctx ++ ps "/main.py") st.fs = true
  · rw [if_pos h]
  · rw [if_neg h]

theorem createFullStructure_name (env : Env) (ctx : ScaffoldContext)
    (st : ExecState) :
    (createFullStructure env ctx st).2.1 = fullStructureName := by
  unfold createFullStructure
  by_cases h : fsHas (ps "tests/test_main.py")
      (createMainStructure env ctx st).2.2.fs = true
  · rw [if_pos h]
  · rw [if_neg h]

theorem createMainStructure_fs_preserve (env : Env) (ctx : ScaffoldContext)
    (st : ExecState) (q : PyStr)
    (h2 : packageDirOf ctx ++ ps "/__init__.py" ≠ q)
    (h3 : packageDirOf ctx ++ ps "/main.py" ≠ q) :
    fsLookup q (createMainStructure env ctx st).2.2.fs = fsLookup q st.fs := by
  unfold createMainStructure
  by_cases hm : fsHas (packageDirOf ctx ++ ps "/main.py") st.fs = true
  · rw [if_pos hm]
  · rw [if_neg hm]
    show fsLookup q (writeFile env (touch st _) _ _).2.fs = _
    rw [writeFile_fs_preserve env _ _ _ q h3, touch_fs_preserve st _ q h2]

theorem createFullStructure_fs_preserve (env : Env) (ctx : ScaffoldContext)
    (st : ExecState) (q : PyStr)
    (h2 : packageDirOf ctx ++ ps "/__init__.py" ≠ q)
    (h3 : packageDirOf ctx ++ ps "/main.py" ≠ q)
    (h4 : ps "tests/__init__.py" ≠ q)
    (h5 : ps "tests/test_main.py" ≠ q) :
    fsLookup q (createFullStructure env ctx st).2.2.fs = fsLookup q st.fs := by
  unfold createFullStructure
  by_cases hm : fsHas (ps "tests/test_main.py")
      (createMainStructure env ctx st).2.2.fs = true
  · rw [if_pos hm]
    exact createMainStructure_fs_preserve env ctx st q h2 h3
  · rw [if_neg hm]
    show fsLookup q (writeFile env (touch _ _) _ _).2.fs = _
    rw [writeFile_fs_preserve env _ _ _ q h5, touch_fs_preserve _ _ q h4,
      createMainStructure_fs_preserve env ctx st q h2 h3]

theorem record_fs (st : ExecState) (c : Bool) (n : PyStr) :
    (record st c n).fs = st.fs := by
  unfold record
  by_cases h : c = true
  · rw [if_pos h]
  · rw [if_neg h]

theorem record_not_mem (st : ExecState) (c : Bool) (n : PyStr) (q : PyStr)
    (hq : q ≠ n) :
    (q ∉ st.created → q ∉ (record st c n).created)
    ∧ (q ∉ st.skipped → q ∉ (record st c n).skipped) := by
  unfold record
  by_cases h : c = true
  · rw [if_pos h]
    refine ⟨fun hc hmem => ?_, fun hs hmem => hs hmem⟩
    rcases List.mem_append.mp hmem with hx | hx
    · exact hc hx
    · exact hq (List.mem_singleton.mp hx)
  · rw [if_neg h]
    refine ⟨fun hc hmem => hc hmem, fun hs hmem => ?_⟩
    rcases List.mem_append.mp hmem with hx | hx
    · exact hs hx
    · exact hq (List.mem_singleton.mp hx)

theorem processStructures_preserve (env : Env) (ctx : ScaffoldContext)
    (l : List StructureTemplate) (st : ExecState) (q : PyStr)
    (h2 : packageDirOf ctx ++ ps "/__init__.py" ≠ q)
    (h3 : packageDirOf ctx ++ ps "/main.py" ≠ q)
    (h4 : ps "tests/__init__.py" ≠ q)
    (h5 : ps "tests/test_main.py" ≠ q)
    (h6 : q ≠ mainStructureName) (h7 : q ≠ fullStructureName) :
    fsLookup q (processStructures env ctx l st).fs = fsLookup q st.fs
    ∧ (q ∉ st.created → q ∉ (processStructures env ctx l st).created)
    ∧ (q ∉ st.skipped → q ∉ (processStructures env ctx l st).skipped) := by
  induction l generalizing st with
  | nil => exact ⟨rfl, fun h => h, fun h => h⟩
  | cons t ts ih =>
    cases t with
    | main =>
      simp only [processStructures]
      have hname := createMainStructure_name env ctx st
      obtain ⟨ihf, ihc, ihs⟩ := ih (record (createMainStructure env ctx st).2.2
        (createMainStructure env ctx st).1 (createMainStructure env ctx st).2.1)
      refine ⟨?_, ?_, ?_⟩
      · rw [ihf, record_fs, createMainStructure_fs_preserve env ctx st q h2 h3]
      · intro hc
        refine ihc ((record_not_mem _ _ _ q ?_).1 ?_)
        · rw [hname]; exact h6
        · rw [(createMainStructure_partitions env ctx st).1]; exact hc
      · intro hs
        refine ihs ((record_not_mem _ _ _ q ?_).2 ?_)
        · rw [hname]; exact h6
        · rw [(createMainStructure_partitions env ctx st).2]; exact hs
    | full =>
      simp only [processStructures]
      have hname := createFullStructure_name env ctx st
      obtain ⟨ihf, ihc, ihs⟩ := ih (record (createFullStructure env ctx st).2.2
        (createFullStructure env ctx st).1 (createFullStructure env ctx st).2.1)
      refine ⟨?_, ?_, ?_⟩
      · rw [ihf, record_fs,
          createFullStructure_fs_preserve env ctx st q h2 h3 h4 h5]
      · intro hc
        refine ihc ((record_not_mem _ _ _ q ?_).1 ?_)
        · rw [hname]; exact h7
        · rw [(createFullStructure_partitions env ctx st).1]; exact hc
      · intro hs
        refine ihs ((record_not_mem _ _ _ q ?_).2 ?_)
        · rw [hname]; exact h7
        · rw [(createFullStructure_partitions env ctx st).2]; exact hs
    | all =>
      simp only [processStructures]
      exact ih st

theorem processFiles_preserve (env : Env) (ctx : ScaffoldContext)
    (l : List (FileType × FileSpec)) (acc : Option FileSpec) (st : ExecState)
    (q : PyStr)
    (h1 : ∀ ft spec, (ft, spec) ∈ l → ft ≠ FileType.pyproject →
        resolvedFilename ft spec ≠ q) :
    fsLookup q (processFiles env ctx l acc st).2.fs = fsLookup q st.fs
    ∧ (q ∉ st.created → q ∉ (processFiles env ctx l acc st).2.created)
    ∧ (q ∉ st.skipped → q ∉ (processFiles env ctx l acc st).2.skipped) := by
  induction l generalizing acc st with
  | nil => exact ⟨rfl, fun h => h, fun h => h⟩
  | cons f rest ih =>
    obtain ⟨ft, spec⟩ := f
    have h1rest : ∀ ft2 spec2, (ft2, spec2) ∈ rest →
        ft2 ≠ FileType.pyproject → resolvedFilename ft2 spec2 ≠ q :=
      fun ft2 spec2 hm => h1 ft2 spec2 (List.mem_cons_of_mem _ hm)
    by_cases hpy : ft = FileType.pyproject
    · subst hpy
      have hstep : processFiles env ctx ((FileType.pyproject, spec) :: rest)
          acc st = processFiles env ctx rest (some spec) st := by
        simp [processFiles]
      rw [hstep]
      exact ih _ _ h1rest
    · simp only [processFiles, if_neg hpy]
      have hne : resolvedFilename ft spec ≠ q :=
        h1 ft spec (List.mem_cons_self _ _) hpy
      have hname := createFile_name env ft spec ctx st hpy
      obtain ⟨ihf, ihc, ihs⟩ := ih acc (record (createFile env ft spec ctx st).2.2
        (createFile env ft spec ctx st).1 (createFile env ft spec ctx st).2.1)
        h1rest
      refine ⟨?_, ?_, ?_⟩
      · rw [ihf, record_fs, createFile_fs_preserve env ft spec ctx st q hne]
      · intro hc
        refine ihc ((record_not_mem _ _ _ q ?_).1 ?_)
        · rw [hname]; exact fun he => hne he.symm
        · rw [(createFile_partitions env ft spec ctx st).1]; exact hc
      · intro hs
        refine ihs ((record_not_mem _ _ _ q ?_).2 ?_)
        · rw [hname]; exact fun he => hne he.symm
        · rw [(createFile_partitions env ft spec ctx st).2]; exact hs

theorem executePlan_preserve (env : Env) (ctx : ScaffoldContext)
    (structOrder : List StructureTemplate)
    (fileOrder : List (FileType × FileSpec)) (st0 : ExecState) (q : PyStr)
    (h1 : ∀ ft spec, (ft, spec) ∈ fileOrder → ft ≠ FileType.pyproject →
        resolvedFilename ft spec ≠ q)
    (h2 : packageDirOf ctx ++ ps "/__init__.py" ≠ q)
    (h3 : packageDirOf ctx ++ ps "/main.py" ≠ q)
    (h4 : ps "tests/__init__.py" ≠ q)
    (h5 : ps "tests/test_main.py" ≠ q)
    (h6 : q ≠ mainStructureName) (h7 : q ≠ fullStructureName)
    (h8 : ps "pyproject.toml" ≠ q) :
    fsLookup q (executePlan env ctx structOrder fileOrder st0).fs
        = fsLookup q st0.fs
    ∧ (q ∉ st0.created →
        q ∉ (executePlan env ctx structOrder fileOrder st0).created)
    ∧ (q ∉ st0.skipped →
        q ∉ (executePlan env ctx structOrder fileOrder st0).skipped) := by
  obtain ⟨hsf, hsc, hss⟩ :=
    processStructures_preserve env ctx structOrder st0 q h2 h3 h4 h5 h6 h7
  obtain ⟨hff, hfc, hfs2⟩ := processFiles_preserve env ctx fileOrder none
    (processStructures env ctx structOrder st0) q h1
  unfold executePlan
  cases hpf : (processFiles env ctx fileOrder none
      (processStructures env ctx structOrder st0)).1 with
  | some sp =>
    simp only [hpf]
    have hpyname : (createPyprojectToml env ctx
        (processFiles env ctx fileOrder none
          (processStructures env ctx structOrder st0)).2).2.1 =
        ps "pyproject.toml" := rfl
    have hpyfs : fsLookup q (createPyprojectToml env ctx
        (processFiles env ctx fileOrder none
          (processStructures env ctx structOrder st0)).2).2.2.fs =
        fsLookup q (processFiles env ctx fileOrder none
          (processStructures env ctx structOrder st0)).2.fs := by
      unfold createPyprojectToml
      exact writeFile_fs_preserve env _ _ _ q h8
    refine ⟨?_, ?_, ?_⟩
    · rw [record_fs, hpyfs, hff, hsf]
    · intro hc
      refine (record_not_mem _ _ _ q ?_).1 ?_
      · rw [hpyname]; exact fun he => h8 he.symm
      · rw [(createPyprojectToml_partitions env ctx _).1]
        exact hfc (hsc hc)
    · intro hs
      refine (record_not_mem _ _ _ q ?_).2 ?_
      · rw [hpyname]; exact fun he => h8 he.symm
      · rw [(createPyprojectToml_partitions env ctx _).2]
        exact hfs2 (hss hs)
  | none =>
    simp only [hpf]
    exact ⟨by rw [hff, hsf], fun hc => hfc (hsc hc), fun hs => hfs2 (hss hs)⟩

theorem build_files_no_conflict (targetName : PyStr) (tokens : List PyStr)
    (fs : FS) (e : FileType × FileSpec)
    (h : e ∈ (ScaffoldContext.build targetName tokens fs).files_to_create) :
    fileWouldConflict e.1 e.2 (DirectorySnapshot.scan fs) = false := by
  have hfiles : (ScaffoldContext.build targetName tokens fs).files_to_create =
      (applyPrioritization (buildRequests tokens).1
          (DirectorySnapshot.scan fs)).filter
        (fun e2 => ¬ fileWouldConflict e2.1 e2.2 (DirectorySnapshot.scan fs)) :=
    rfl
  rw [hfiles] at h
  have h2 := (List.mem_filter.mp h).2
  simpa using h2

theorem scan_file_exists_license (fs : FS)
    (h : fsHas (ps "LICENSE") fs = true) :
    (DirectorySnapshot.scan fs).file_exists (ps "LICENSE") = true := by
  unfold DirectorySnapshot.scan DirectorySnapshot.file_exists
  exact (strMem_iff _ _).mpr (List.mem_filter.mpr ⟨by decide, h⟩)

theorem src_path_ne_license (pkg rest : PyStr) :
    (ps "src/" ++ pkg) ++ rest ≠ ps "LICENSE" := by
  intro h
  have h2 : 's' :: ((ps "rc/" ++ pkg) ++ rest) = 'L' :: ps "ICENSE" := h
  injection h2 with hh _
  exact absurd hh (by decide)

/-- C1 (corrected): counterexample — the executor performs **no** existence
check at the moment of writing and never reports a plan-time-dropped
artifact.  First: with `LICENSE` already present and token `l:apache:Jane`,
the existing content is untouched, but nothing is reported as skipped (the
request is silently dropped from the plan), contradicting "records the
artifact as skipped".  Second: two artifacts resolving to the same filename
`foo` (`l:mit:A:foo` then `r:foo`) are both written and both reported
created — at the moment of the second write the path exists, yet it is
overwritten rather than skipped, and the final content is the
requirements render. -/
theorem existing_license_not_reported_skipped :
    ((runScaffold defaultEnv (ps "proj") [ps "l:apache:Jane"]
        [(ps "LICENSE", Content.pre 0)]).skipped = []
    ∧ (runScaffold defaultEnv (ps "proj") [ps "l:apache:Jane"]
        [(ps "LICENSE", Content.pre 0)]).created = []
    ∧ fsLookup (ps "LICENSE")
        (runScaffold defaultEnv (ps "proj") [ps "l:apache:Jane"]
          [(ps "LICENSE", Content.pre 0)]).fs = some (Content.pre 0))
  ∧ ((runScaffold defaultEnv (ps "proj") [ps "l:mit:A:foo", ps "r:foo"]
        []).created = [ps "foo", ps "foo"]
    ∧ (runScaffold defaultEnv (ps "proj") [ps "l:mit:A:foo", ps "r:foo"]
        []).skipped = []
    ∧ fsLookup (ps "foo")
        (runScaffold defaultEnv (ps "proj") [ps "l:mit:A:foo", ps "r:foo"]
          []).fs = some (render (ps "requirements.txt.tmpl") [])) := by
  decide

/-- C1 (amended): the create-only guarantee for an existing `LICENSE` is
enforced at **plan-build** time, not at write time: for every environment,
token list and filesystem in which `LICENSE` exists, the whole
planner-plus-executor run leaves the `LICENSE` content byte-for-byte
unchanged, but the artifact is reported neither as created **nor as
skipped** (it is silently excluded from the plan).  The legacy
`FileManager.create_license` path, by contrast, does check at write time:
it returns `False` (which its caller reports as skipped) and leaves the
filesystem unchanged. -/
theorem existing_license_untouched_unreported (env : Env)
    (targetName : PyStr) (tokens : List PyStr) (fs : FS)
    (hfs : fsHas (ps "LICENSE") fs = true) :
    fsLookup (ps "LICENSE") (runScaffold env targetName tokens fs).fs
        = fsLookup (ps "LICENSE") fs
    ∧ ps "LICENSE" ∉ (runScaffold env targetName tokens fs).created
    ∧ ps "LICENSE" ∉ (runScaffold env targetName tokens fs).skipped
    ∧ fmCreateLicense env fs = (false, fs) := by
  have hsnap := scan_file_exists_license fs hfs
  have h1 : ∀ ft spec, (ft, spec) ∈
      (ScaffoldContext.build targetName tokens fs).files_to_create →
      ft ≠ FileType.pyproject → resolvedFilename ft spec ≠ ps "LICENSE" := by
    intro ft spec hmem _ heq
    have hc := build_files_no_conflict targetName tokens fs (ft, spec) hmem
    unfold fileWouldConflict at hc
    rw [show ((ft, spec).1) = ft from rfl, show ((ft, spec).2) = spec from rfl]
      at hc
    rw [heq, hsnap] at hc
    exact absurd hc (by simp)
  obtain ⟨hf, hc, hs⟩ := executePlan_preserve env
    (ScaffoldContext.build targetName tokens fs)
    (ScaffoldContext.build targetName tokens fs).structures_to_create
    (ScaffoldContext.build targetName tokens fs).files_to_create
    (initState fs) (ps "LICENSE") h1
    (src_path_ne_license _ _) (src_path_ne_license _ _)
    (by decide) (by decide) (by decide) (by decide) (by decide)
  refine ⟨hf, hc (by simp [initState]), hs (by simp [initState]), ?_⟩
  unfold fmCreateLicense
  rw [if_pos hfs]

/-- Witness for C1 (amended) with token `l:apache:Jane` over a directory
already holding a `LICENSE`. -/
theorem existing_license_untouched_unreported_witness :
    fsLookup (ps "LICENSE")
        (runScaffold defaultEnv (ps "proj") [ps "l:apache:Jane"]
          [(ps "LICENSE", Content.pre 0)]).fs
        = fsLookup (ps "LICENSE") [(ps "LICENSE", Content.pre 0)]
    ∧ ps "LICENSE" ∉ (runScaffold defaultEnv (ps "proj") [ps "l:apache:Jane"]
        [(ps "LICENSE", Content.pre 0)]).created
    ∧ ps "LICENSE" ∉ (runScaffold defaultEnv (ps "proj") [ps "l:apache:Jane"]
        [(ps "LICENSE", Content.pre 0)]).skipped
    ∧ fmCreateLicense defaultEnv [(ps "LICENSE", Content.pre 0)] =
        (false, [(ps "LICENSE", Content.pre 0)]) :=
  existing_license_untouched_unreported defaultEnv (ps "proj")
    [ps "l:apache:Jane"] [(ps "LICENSE", Content.pre 0)] (by decide)

/-! ## Idempotence of a second run (claim C2) -/

theorem fsHas_cons (p q : PyStr) (c : Content) (fs : FS)
    (h : fsHas p fs = true) : fsHas p ((q, c) :: fs) = true := by
  unfold fsHas fsLookup at h ⊢
  rw [assocLookup]
  by_cases hq : q = p
  · rw [if_pos hq]; rfl
  · rw [if_neg hq]; exact h

theorem writeFile_fs_mono (env : Env) (st : ExecState) (p2 : PyStr)
    (c : Content) (p : PyStr) (h : fsHas p st.fs = true) :
    fsHas p (writeFile env st p2 c).2.fs = true := by
  unfold writeFile
  by_cases he : strMem p2 env.err = true
  · rw [if_pos he]; exact h
  · rw [if_neg he]; exact fsHas_cons p p2 c st.fs h

theorem touch_fs_mono (st : ExecState) (p2 p : PyStr)
    (h : fsHas p st.fs = true) : fsHas p (touch st p2).fs = true := by
  unfold touch
  by_cases hp : fsHas p2 st.fs = true
  · rw [if_pos hp]; exact h
  · rw [if_neg hp]; exact fsHas_cons p p2 _ st.fs h

theorem createFile_fs_mono (env : Env) (ft : FileType) (spec : FileSpec)
    (ctx : ScaffoldContext) (st : ExecState) (p : PyStr)
    (h : fsHas p st.fs = true) :
    fsHas p (createFile env ft spec ctx st).2.2.fs = true := by
  cases ft <;>
    simp only [createFile, createRequirements, createGitignore, createReadme,
      createLicense, createChangelog] <;>
    first
      | exact writeFile_fs_mono env st _ _ p h
      | exact h

theorem createMainStructure_fs_mono (env : Env) (ctx : ScaffoldContext)
    (st : ExecState) (p : PyStr) (h : fsHas p st.fs = true) :
    fsHas p (createMainStructure env ctx st).2.2.fs = true := by
  unfold createMainStructure
  by_cases hm : fsHas (packageDirOf ctx ++ ps "/main.py") st.fs = true
  · rw [if_pos hm]; exact h
  · rw [if_neg hm]
    exact writeFile_fs_mono env _ _ _ p (touch_fs_mono st _ p h)

theorem createFullStructure_fs_mono (env : Env) (ctx : ScaffoldContext)
    (st : ExecState) (p : PyStr) (h : fsHas p st.fs = true) :
    fsHas p (createFullStructure env ctx st).2.2.fs = true := by
  unfold createFullStructure
  by_cases hm : fsHas (ps "tests/test_main.py")
      (createMainStructure env ctx st).2.2.fs = true
  · rw [if_pos hm]; exact createMainStructure_fs_mono env ctx st p h
  · rw [if_neg hm]
    exact writeFile_fs_mono env _ _ _ p
      (touch_fs_mono _ _ p (createMainStructure_fs_mono env ctx st p h))

theorem processStructures_fs_mono (env : Env) (ctx : ScaffoldContext)
    (l : List StructureTemplate) (st : ExecState) (p : PyStr)
    (h : fsHas p st.fs = true) :
    fsHas p (processStructures env ctx l st).fs = true := by
  induction l generalizing st with
  | nil => exact h
  | cons t ts ih =>
    cases t with
    | main =>
      simp only [processStructures]
      refine ih _ ?_
      rw [record_fs]
      exact createMainStructure_fs_mono env ctx st p h
    | full =>
      simp only [processStructures]
      refine ih _ ?_
      rw [record_fs]
      exact createFullStructure_fs_mono env ctx st p h
    | all =>
      simp only [processStructures]
      exact ih st h

theorem processFiles_fs_mono (env : Env) (ctx : ScaffoldContext)
    (l : List (FileType × FileSpec)) (acc : Option FileSpec) (st : ExecState)
    (p : PyStr) (h : fsHas p st.fs = true) :
    fsHas p (processFiles env ctx l acc st).2.fs = true := by
  induction l generalizing acc st with
  | nil => exact h
  | cons f rest ih =>
    obtain ⟨ft, spec⟩ := f
    by_cases hpy : ft = FileType.pyproject
    · subst hpy
      have hstep : processFiles env ctx ((FileType.pyproject, spec) :: rest)
          acc st = processFiles env ctx rest (some spec) st := by
        simp [processFiles]
      rw [hstep]
      exact ih _ _ h
    · simp only [processFiles, if_neg hpy]
      refine ih _ _ ?_
      rw [record_fs]
      exact createFile_fs_mono env ft spec ctx st p h

theorem executePlan_fs_mono (env : Env) (ctx : ScaffoldContext)
    (structOrder : List StructureTemplate)
    (fileOrder : List (FileType × FileSpec)) (st0 : ExecState) (p : PyStr)
    (h : fsHas p st0.fs = true) :
    fsHas p (executePlan env ctx structOrder fileOrder st0).fs = true := by
  unfold executePlan
  have h2 := processFiles_fs_mono env ctx fileOrder none
    (processStructures env ctx structOrder st0) p
    (processStructures_fs_mono env ctx structOrder st0 p h)
  cases hpf : (processFiles env ctx fileOrder none
      (processStructures env ctx structOrder st0)).1 with
  | some sp =>
    simp only [hpf]
    rw [record_fs]
    unfold createPyprojectToml
    exact writeFile_fs_mono env _ _ _ p h2
  | none =>
    simp only [hpf]
    exact h2

theorem writeFile_creates (env : Env) (st : ExecState) (p : PyStr)
    (c : Content) (herr : env.err = []) :
    fsHas p (writeFile env st p c).2.fs = true := by
  unfold writeFile
  rw [herr, if_neg (by simp [strMem])]
  show (assocLookup p ((p, c) :: st.fs)).isSome = true
  rw [assocLookup, if_pos rfl]
  rfl

theorem createFile_creates (env : Env) (ft : FileType) (spec : FileSpec)
    (ctx : ScaffoldContext) (st : ExecState) (herr : env.err = [])
    (hft : ft ≠ FileType.pyproject) :
    fsHas (resolvedFilename ft spec) (createFile env ft spec ctx st).2.2.fs
      = true := by
  cases ft with
  | pyproject => exact absurd rfl hft
  | license =>
    simp only [createFile, createLicense, resolvedFilename]
    exact writeFile_creates env st _ _ herr
  | requirements =>
    simp only [createFile, createRequirements, resolvedFilename]
    exact writeFile_creates env st _ _ herr
  | gitignore =>
    simp only [createFile, createGitignore, resolvedFilename]
    exact writeFile_creates env st _ _ herr
  | readme =>
    simp only [createFile, createReadme, resolvedFilename]
    exact writeFile_creates env st _ _ herr
  | changelog =>
    simp only [createFile, createChangelog, resolvedFilename]
    exact writeFile_creates env st _ _ herr

theorem createMainStructure_creates (env : Env) (ctx : ScaffoldContext)
    (st : ExecState) (herr : env.err = []) :
    fsHas (packageDirOf ctx ++ ps "/main.py")
      (createMainStructure env ctx st).2.2.fs = true := by
  unfold createMainStructure
  by_cases hm : fsHas (packageDirOf ctx ++ ps "/main.py") st.fs = true
  · rw [if_pos hm]; exact hm
  · rw [if_neg hm]
    exact writeFile_creates env _ _ _ herr

theorem createFullStructure_creates (env : Env) (ctx : ScaffoldContext)
    (st : ExecState) (herr : env.err = []) :
    fsHas (packageDirOf ctx ++ ps "/main.py")
        (createFullStructure env ctx st).2.2.fs = true
    ∧ fsHas (ps "tests/test_main.py")
        (createFullStructure env ctx st).2.2.fs = true := by
  unfold createFullStructure
  by_cases hm : fsHas (ps "tests/test_main.py")
      (createMainStructure env ctx st).2.2.fs = true
  · rw [if_pos hm]
    exact ⟨createMainStructure_creates env ctx st herr, hm⟩
  · rw [if_neg hm]
    constructor
    · exact writeFile_fs_mono env _ _ _ _
        (touch_fs_mono _ _ _ (createMainStructure_creates env ctx st herr))
    · exact writeFile_creates env _ _ _ herr

theorem processStructures_creates (env : Env) (ctx : ScaffoldContext)
    (l : List StructureTemplate) (st : ExecState) (herr : env.err = []) :
    ((StructureTemplate.main ∈ l ∨ StructureTemplate.full ∈ l) →
        fsHas (packageDirOf ctx ++ ps "/main.py")
          (processStructures env ctx l st).fs = true)
    ∧ (StructureTemplate.full ∈ l →
        fsHas (ps "tests/test_main.py")
          (processStructures env ctx l st).fs = true) := by
  induction l generalizing st with
  | nil =>
    constructor
    · rintro (h | h) <;> exact absurd h (List.not_mem_nil _)
    · intro h; exact absurd h (List.not_mem_nil _)
  | cons t ts ih =>
    cases t with
    | main =>
      simp only [processStructures]
      constructor
      · intro _
        refine processStructures_fs_mono env ctx ts _ _ ?_
        rw [record_fs]
        exact createMainStructure_creates env ctx st herr
      · intro hf
        have hf2 : StructureTemplate.full ∈ ts := by
          rcases List.mem_cons.mp hf with h | h
          · exact absurd h (by decide)
          · exact h
        exact (ih _).2 hf2
    | full =>
      simp only [processStructures]
      constructor
      · intro _
        refine processStructures_fs_mono env ctx ts _ _ ?_
        rw [record_fs]
        exact (createFullStructure_creates env ctx st herr).1
      · intro _
        refine processStructures_fs_mono env ctx ts _ _ ?_
        rw [record_fs]
        exact (createFullStructure_creates env ctx st herr).2
    | all =>
      simp only [processStructures]
      constructor
      · rintro (h | h)
        · rcases List.mem_cons.mp h with h2 | h2
          · exact absurd h2 (by decide)
          · exact (ih st).1 (Or.inl h2)
        · rcases List.mem_cons.mp h with h2 | h2
          · exact absurd h2 (by decide)
          · exact (ih st).1 (Or.inr h2)
      · intro h
        rcases List.mem_cons.mp h with h2 | h2
        · exact absurd h2 (by decide)
        · exact (ih st).2 h2

theorem processFiles_creates (env : Env) (ctx : ScaffoldContext)
    (l : List (FileType × FileSpec)) (acc : Option FileSpec) (st : ExecState)
    (herr : env.err = []) (ft : FileType) (spec : FileSpec)
    (he : (ft, spec) ∈ l) (hft : ft ≠ FileType.pyproject) :
    fsHas (resolvedFilename ft spec) (processFiles env ctx l acc st).2.fs
      = true := by
  induction l generalizing acc st with
  | nil => exact absurd he (List.not_mem_nil _)
  | cons f rest ih =>
    obtain ⟨ft2, spec2⟩ := f
    rcases List.mem_cons.mp he with heq | htail
    · obtain ⟨h1, h2⟩ := Prod.ext_iff.mp heq
      dsimp only at h1 h2
      subst h1
      subst h2
      simp only [processFiles, if_neg hft]
      refine processFiles_fs_mono env ctx rest acc _ _ ?_
      rw [record_fs]
      exact createFile_creates env ft spec ctx st herr hft
    · by_cases hpy : ft2 = FileType.pyproject
      · subst hpy
        have hstep : processFiles env ctx ((FileType.pyproject, spec2) :: rest)
            acc st = processFiles env ctx rest (some spec2) st := by
          simp [processFiles]
        rw [hstep]
        exact ih _ _ htail
      · simp only [processFiles, if_neg hpy]
        exact ih _ _ htail

theorem executePlan_creates (env : Env) (ctx : ScaffoldContext)
    (structOrder : List StructureTemplate)
    (fileOrder : List (FileType × FileSpec)) (st0 : ExecState)
    (herr : env.err = []) :
    (∀ ft spec, (ft, spec) ∈ fileOrder → ft ≠ FileType.pyproject →
        fsHas (resolvedFilename ft spec)
          (executePlan env ctx structOrder fileOrder st0).fs = true)
    ∧ (FileType.pyproject ∈ fileOrder.map Prod.fst →
        fsHas (ps "pyproject.toml")
          (executePlan env ctx structOrder fileOrder st0).fs = true)
    ∧ ((StructureTemplate.main ∈ structOrder
          ∨ StructureTemplate.full ∈ structOrder) →
        fsHas (packageDirOf ctx ++ ps "/main.py")
          (executePlan env ctx structOrder fileOrder st0).fs = true)
    ∧ (StructureTemplate.full ∈ structOrder →
        fsHas (ps "tests/test_main.py")
          (executePlan env ctx structOrder fileOrder st0).fs = true) := by
  have hfin : ∀ p, fsHas p (processFiles env ctx fileOrder none
      (processStructures env ctx structOrder st0)).2.fs = true →
      fsHas p (executePlan env ctx structOrder fileOrder st0).fs = true := by
    intro p hp
    unfold executePlan
    cases hpf : (processFiles env ctx fileOrder none
        (processStructures env ctx structOrder st0)).1 with
    | some sp =>
      simp only [hpf]
      rw [record_fs]
      unfold createPyprojectToml
      exact writeFile_fs_mono env _ _ _ p hp
    | none =>
      simp only [hpf]
      exact hp
  refine ⟨?_, ?_, ?_, ?_⟩
  · intro ft spec hm hft
    exact hfin _ (processFiles_creates env ctx fileOrder none _ herr ft spec
      hm hft)
  · intro hpy
    have hpf := processFiles_pyspec_isSome env ctx fileOrder none
      (processStructures env ctx structOrder st0) (Or.inl hpy)
    obtain ⟨sp, hsp⟩ := Option.isSome_iff_exists.mp hpf
    unfold executePlan
    simp only [hsp]
    rw [record_fs]
    unfold createPyprojectToml
    exact writeFile_creates env _ _ _ herr
  · intro hm
    exact hfin _ (processFiles_fs_mono env ctx fileOrder none _ _
      ((processStructures_creates env ctx structOrder st0 herr).1 hm))
  · intro hf
    exact hfin _ (processFiles_fs_mono env ctx fileOrder none _ _
      ((processStructures_creates env ctx structOrder st0 herr).2 hf))

theorem replaceKey_mem {α β : Type} [DecidableEq α]
    (m : List (α × β)) (k : α) (v : β) (e : α × β)
    (h : e ∈ replaceKey m k v) : e ∈ m ∨ e = (k, v) := by
  induction m with
  | nil => exact absurd h (List.not_mem_nil _)
  | cons f rest ih =>
    obtain ⟨a, b⟩ := f
    by_cases ha : a = k
    · rw [replaceKey, if_pos ha] at h
      rcases List.mem_cons.mp h with h2 | h2
      · exact Or.inr h2
      · rcases ih h2 with h3 | h3
        · exact Or.inl (List.mem_cons_of_mem _ h3)
        · exact Or.inr h3
    · rw [replaceKey, if_neg ha] at h
      rcases List.mem_cons.mp h with h2 | h2
      · exact Or.inl (h2 ▸ List.mem_cons_self _ _)
      · rcases ih h2 with h3 | h3
        · exact Or.inl (List.mem_cons_of_mem _ h3)
        · exact Or.inr h3

theorem mapInsert_mem {α β : Type} [DecidableEq α]
    (m : List (α × β)) (k : α) (v : β) (e : α × β)
    (h : e ∈ mapInsert m k v) : e ∈ m ∨ e = (k, v) := by
  unfold mapInsert at h
  by_cases hs : (assocLookup k m).isSome
  · rw [if_pos hs] at h
    exact replaceKey_mem m k v e h
  · rw [if_neg hs] at h
    rcases List.mem_append.mp h with h2 | h2
    · exact Or.inl h2
    · exact Or.inr (List.mem_singleton.mp h2)

theorem foldl_addStep_mem (L : List FileType)
    (m : List (FileType × FileSpec)) (e : FileType × FileSpec)
    (h : e ∈ L.foldl
      (fun m ft => if (assocLookup ft m).isSome then m
        else m ++ [(ft, ⟨ft, []⟩)]) m) :
    e ∈ m ∨ e.2 = ⟨e.1, []⟩ := by
  induction L generalizing m with
  | nil => exact Or.inl h
  | cons a L ih =>
    rw [List.foldl_cons] at h
    by_cases ha : (assocLookup a m).isSome
    · rw [if_pos ha] at h
      exact ih m h
    · rw [if_neg ha] at h
      rcases ih _ h with h2 | h2
      · rcases List.mem_append.mp h2 with h3 | h3
        · exact Or.inl h3
        · obtain ⟨h4, h5⟩ := Prod.ext_iff.mp (List.mem_singleton.mp h3)
          dsimp only at h4 h5
          right
          rw [h5, h4]
      · exact Or.inr h2

theorem go_mem_provenance (ts : List PyStr)
    (files : List (FileType × FileSpec)) (structs : List StructureTemplate)
    (e : FileType × FileSpec)
    (h : e ∈ (buildRequests.go ts files structs).1) :
    e ∈ files
    ∨ (∃ t, t ∈ ts ∧ (FileSpec.parse t).1 = some e.2)
    ∨ e.2 = ⟨e.1, []⟩ := by
  induction ts generalizing files structs with
  | nil => exact Or.inl h
  | cons t ts ih =>
    rcases hp : FileSpec.parse t with ⟨o1, o2⟩
    have hweaken : (∃ t2, t2 ∈ ts ∧ (FileSpec.parse t2).1 = some e.2) →
        ∃ t2, t2 ∈ t :: ts ∧ (FileSpec.parse t2).1 = some e.2 :=
      fun ⟨t2, hm, hp2⟩ => ⟨t2, List.mem_cons_of_mem _ hm, hp2⟩
    cases o2 with
    | some st =>
      cases st with
      | all =>
        simp only [buildRequests.go, hp] at h
        rcases ih _ _ h with h2 | h2 | h2
        · rcases foldl_addStep_mem _ files e h2 with h3 | h3
          · exact Or.inl h3
          · exact Or.inr (Or.inr h3)
        · exact Or.inr (Or.inl (hweaken h2))
        · exact Or.inr (Or.inr h2)
      | main =>
        simp only [buildRequests.go, hp] at h
        rcases ih _ _ h with h2 | h2 | h2
        · exact Or.inl h2
        · exact Or.inr (Or.inl (hweaken h2))
        · exact Or.inr (Or.inr h2)
      | full =>
        simp only [buildRequests.go, hp] at h
        rcases ih _ _ h with h2 | h2 | h2
        · exact Or.inl h2
        · exact Or.inr (Or.inl (hweaken h2))
        · exact Or.inr (Or.inr h2)
    | none =>
      cases o1 with
      | some spec =>
        simp only [buildRequests.go, hp] at h
        rcases ih _ _ h with h2 | h2 | h2
        · rcases mapInsert_mem files spec.file_type spec e h2 with h3 | h3
          · exact Or.inl h3
          · refine Or.inr (Or.inl ⟨t, List.mem_cons_self _ _, ?_⟩)
            rw [hp, h3]
        · exact Or.inr (Or.inl (hweaken h2))
        · exact Or.inr (Or.inr h2)
      | none =>
        simp only [buildRequests.go, hp] at h
        rcases ih _ _ h with h2 | h2 | h2
        · exact Or.inl h2
        · exact Or.inr (Or.inl (hweaken h2))
        · exact Or.inr (Or.inr h2)

theorem requested_no_filename (tokens : List PyStr)
    (hopt : ∀ t ∈ tokens, ∀ s, (FileSpec.parse t).1 = some s →
        assocLookup (ps "filename") s.options = none)
    (e : FileType × FileSpec) (h : e ∈ (buildRequests tokens).1) :
    assocLookup (ps "filename") e.2.options = none := by
  rcases go_mem_provenance tokens [] [] e h with h2 | h2 | h2
  · exact absurd h2 (List.not_mem_nil _)
  · obtain ⟨t, hm, hp⟩ := h2
    exact hopt t hm e.2 hp
  · rw [h2]; rfl

theorem resolvedFilename_wellKnown (ft : FileType) (spec : FileSpec)
    (h : assocLookup (ps "filename") spec.options = none) :
    resolvedFilename ft spec ∈ wellKnownFilenames := by
  cases ft <;>
    simp only [resolvedFilename, FileSpec.get, h] <;>
    decide

theorem scan_file_exists (fs : FS) (name : PyStr)
    (hwk : name ∈ wellKnownFilenames) (h : fsHas name fs = true) :
    (DirectorySnapshot.scan fs).file_exists name = true := by
  unfold DirectorySnapshot.scan DirectorySnapshot.file_exists
  exact (strMem_iff _ _).mpr (List.mem_filter.mpr ⟨hwk, h⟩)

theorem file_exists_fsHas (fs : FS) (name : PyStr)
    (h : (DirectorySnapshot.scan fs).file_exists name = true) :
    fsHas name fs = true := by
  unfold DirectorySnapshot.scan DirectorySnapshot.file_exists at h
  exact (List.mem_filter.mp ((strMem_iff _ _).mp h)).2

/-- The summary name a structure template reports (the `all` variant never
reaches the executor). -/
def structName : StructureTemplate → Option PyStr
  | .main => some mainStructureName
  | .full => some fullStructureName
  | .all => none

theorem processStructures_all_exist (env : Env) (ctx : ScaffoldContext)
    (l : List StructureTemplate) (st : ExecState)
    (hm : (StructureTemplate.main ∈ l ∨ StructureTemplate.full ∈ l) →
        fsHas (packageDirOf ctx ++ ps "/main.py") st.fs = true)
    (ht : StructureTemplate.full ∈ l →
        fsHas (ps "tests/test_main.py") st.fs = true) :
    processStructures env ctx l st =
      { st with skipped := st.skipped ++ l.filterMap structName } := by
  induction l generalizing st with
  | nil => simp [processStructures]
  | cons t ts ih =>
    cases t with
    | main =>
      have hmain := hm (Or.inl (List.mem_cons_self _ _))
      have hcreate : createMainStructure env ctx st =
          (false, mainStructureName, st) := by
        unfold createMainStructure
        rw [if_pos hmain]
      have hrec : record st false mainStructureName =
          { st with skipped := st.skipped ++ [mainStructureName] } := by
        unfold record
        rw [if_neg (by simp)]
      simp only [processStructures, hcreate, hrec]
      rw [ih { st with skipped := st.skipped ++ [mainStructureName] }
        (fun h => hm (h.imp (List.mem_cons_of_mem _)
          (List.mem_cons_of_mem _)))
        (fun h => ht (List.mem_cons_of_mem _ h))]
      simp [structName, List.append_assoc]
    | full =>
      have hmain := hm (Or.inr (List.mem_cons_self _ _))
      have htest := ht (List.mem_cons_self _ _)
      have hcreatem : createMainStructure env ctx st =
          (false, mainStructureName, st) := by
        unfold createMainStructure
        rw [if_pos hmain]
      have hcreate : createFullStructure env ctx st =
          (false, fullStructureName, st) := by
        unfold createFullStructure
        rw [hcreatem]
        rw [if_pos htest]
      have hrec : record st false fullStructureName =
          { st with skipped := st.skipped ++ [fullStructureName] } := by
        unfold record
        rw [if_neg (by simp)]
      simp only [processStructures, hcreate, hrec]
      rw [ih { st with skipped := st.skipped ++ [fullStructureName] }
        (fun h => hm (h.imp (List.mem_cons_of_mem _)
          (List.mem_cons_of_mem _)))
        (fun h => ht (List.mem_cons_of_mem _ h))]
      simp [structName, List.append_assoc]
    | all =>
      simp only [processStructures]
      rw [ih st
        (fun h => hm (h.imp (List.mem_cons_of_mem _)
          (List.mem_cons_of_mem _)))
        (fun h => ht (List.mem_cons_of_mem _ h))]
      simp [structName]

theorem applyPrioritization_removed (files : List (FileType × FileSpec))
    (snap : DirectorySnapshot) (e : FileType × FileSpec)
    (hin : e ∈ files) (hout : e ∉ applyPrioritization files snap) :
    e.1 = FileType.requirements
    ∧ ((assocLookup FileType.pyproject files).isSome
        || snap.file_exists (ps "pyproject.toml")) = true := by
  unfold applyPrioritization at hout
  by_cases hc : ((assocLookup FileType.pyproject files).isSome
      || snap.file_exists (ps "pyproject.toml")) = true
  · rw [if_pos hc] at hout
    refine ⟨?_, hc⟩
    by_cases he : e.1 = FileType.requirements
    · exact he
    · exact absurd (List.mem_filter.mpr ⟨hin, by simp [he]⟩) hout
  · rw [if_neg hc] at hout
    exact absurd hin hout

theorem mem_applyPrioritization_cond (files : List (FileType × FileSpec))
    (snap : DirectorySnapshot) (e : FileType × FileSpec)
    (hin : e ∈ applyPrioritization files snap)
    (he : e.1 = FileType.requirements) :
    ((assocLookup FileType.pyproject files).isSome
      || snap.file_exists (ps "pyproject.toml")) = false := by
  unfold applyPrioritization at hin
  by_cases hc : ((assocLookup FileType.pyproject files).isSome
      || snap.file_exists (ps "pyproject.toml")) = true
  · rw [if_pos hc] at hin
    have h2 := (List.mem_filter.mp hin).2
    rw [he] at h2
    simp at h2
  · rw [if_neg hc] at hin
    simpa using hc

/-- C2 (amended): rerunning the planner plus executor is idempotent on the
filesystem — with no I/O errors and all artifacts using their default
filenames, a second run on the same directory with the same tokens leaves
the filesystem exactly as the first run left it (zero new files, zero
writes).  However, the second run's summary reports only the structure
templates as skipped: the file artifacts, being dropped from the plan at
build time, appear in neither the created nor the skipped partition. -/
theorem rerun_idempotent_no_writes (env : Env) (targetName : PyStr)
    (tokens : List PyStr) (fs : FS) (herr : env.err = [])
    (hopt : ∀ t ∈ tokens, ∀ s, (FileSpec.parse t).1 = some s →
        assocLookup (ps "filename") s.options = none) :
    (runScaffold env targetName tokens
        (runScaffold env targetName tokens fs).fs).fs
      = (runScaffold env targetName tokens fs).fs
    ∧ (runScaffold env targetName tokens
        (runScaffold env targetName tokens fs).fs).created = []
    ∧ (runScaffold env targetName tokens
        (runScaffold env targetName tokens fs).fs).skipped
      = (buildRequests tokens).2.filterMap structName := by
  have hcreates := executePlan_creates env
    (ScaffoldContext.build targetName tokens fs)
    (ScaffoldContext.build targetName tokens fs).structures_to_create
    (ScaffoldContext.build targetName tokens fs).files_to_create
    (initState fs) herr
  have hfiles1 : (ScaffoldContext.build targetName tokens fs).files_to_create =
      (applyPrioritization (buildRequests tokens).1
          (DirectorySnapshot.scan fs)).filter
        (fun e2 => ¬ fileWouldConflict e2.1 e2.2 (DirectorySnapshot.scan fs)) :=
    rfl
  have hF2 : (ScaffoldContext.build targetName tokens
      (runScaffold env targetName tokens fs).fs).files_to_create = [] := by
    refine List.eq_nil_iff_forall_not_mem.mpr (fun e he => ?_)
    have hconf2 := build_files_no_conflict targetName tokens
      (runScaffold env targetName tokens fs).fs e he
    have hfiles2 : (ScaffoldContext.build targetName tokens
        (runScaffold env targetName tokens fs).fs).files_to_create =
        (applyPrioritization (buildRequests tokens).1
            (DirectorySnapshot.scan (runScaffold env targetName tokens fs).fs)).filter
          (fun e2 => ¬ fileWouldConflict e2.1 e2.2
            (DirectorySnapshot.scan (runScaffold env targetName tokens fs).fs)) :=
      rfl
    rw [hfiles2] at he
    have hps : e ∈ applyPrioritization (buildRequests tokens).1
        (DirectorySnapshot.scan (runScaffold env targetName tokens fs).fs) :=
      (List.mem_filter.mp he).1
    have hreq : e ∈ (buildRequests tokens).1 :=
      mem_applyPrioritization _ _ _ hps
    have hno := requested_no_filename tokens hopt e hreq
    have hwk := resolvedFilename_wellKnown e.1 e.2 hno
    have hhas1 : fsHas (resolvedFilename e.1 e.2)
        (runScaffold env targetName tokens fs).fs = true := by
      by_cases hm1 : e ∈
          (ScaffoldContext.build targetName tokens fs).files_to_create
      · by_cases hpy : e.1 = FileType.pyproject
        · have hmem : FileType.pyproject ∈
              ((ScaffoldContext.build targetName tokens fs).files_to_create).map
                Prod.fst :=
            List.mem_map.mpr ⟨e, hm1, hpy⟩
          have hres : resolvedFilename e.1 e.2 = ps "pyproject.toml" := by
            rw [hpy]
            rfl
          rw [hres]
          exact hcreates.2.1 hmem
        · exact hcreates.1 e.1 e.2 hm1 hpy
      · by_cases hp1 : e ∈ applyPrioritization (buildRequests tokens).1
            (DirectorySnapshot.scan fs)
        · have hconf1 : fileWouldConflict e.1 e.2
              (DirectorySnapshot.scan fs) = true := by
            by_cases hc : fileWouldConflict e.1 e.2
                (DirectorySnapshot.scan fs) = true
            · exact hc
            · exfalso
              apply hm1
              rw [hfiles1]
              have hcf : fileWouldConflict e.1 e.2
                  (DirectorySnapshot.scan fs) = false := by
                revert hc
                cases fileWouldConflict e.1 e.2 (DirectorySnapshot.scan fs) <;>
                  simp
              exact List.mem_filter.mpr ⟨hp1, by simp [hcf]⟩
          have hfs0 : fsHas (resolvedFilename e.1 e.2) fs = true :=
            file_exists_fsHas fs _ hconf1
          exact executePlan_fs_mono env _ _ _ (initState fs) _ hfs0
        · exfalso
          obtain ⟨hereq, hcond1⟩ := applyPrioritization_removed
            (buildRequests tokens).1 (DirectorySnapshot.scan fs) e hreq hp1
          have hcond2 := mem_applyPrioritization_cond (buildRequests tokens).1
            (DirectorySnapshot.scan (runScaffold env targetName tokens fs).fs)
            e hps hereq
          have hcond1b :
              (assocLookup FileType.pyproject (buildRequests tokens).1).isSome
                  = true
                ∨ (DirectorySnapshot.scan fs).file_exists (ps "pyproject.toml")
                  = true := by
            simpa using hcond1
          rcases hcond1b with hsome | hex1
          · rw [hsome] at hcond2
            simp at hcond2
          · have hfs0 : fsHas (ps "pyproject.toml") fs = true :=
              file_exists_fsHas fs _ hex1
            have hfs1 : fsHas (ps "pyproject.toml")
                (runScaffold env targetName tokens fs).fs = true :=
              executePlan_fs_mono env _ _ _ (initState fs) _ hfs0
            have hex2 := scan_file_exists
              (runScaffold env targetName tokens fs).fs
              (ps "pyproject.toml") (by decide) hfs1
            rw [hex2] at hcond2
            simp at hcond2
    have hex2 := scan_file_exists (runScaffold env targetName tokens fs).fs
      (resolvedFilename e.1 e.2) hwk hhas1
    unfold fileWouldConflict at hconf2
    rw [hex2] at hconf2
    exact absurd hconf2 (by simp)
  have hrun2 : runScaffold env targetName tokens
      (runScaffold env targetName tokens fs).fs =
      processStructures env
        (ScaffoldContext.build targetName tokens
          (runScaffold env targetName tokens fs).fs)
        (buildRequests tokens).2
        (initState (runScaffold env targetName tokens fs).fs) := by
    show executePlan env _ _
        (ScaffoldContext.build targetName tokens
          (runScaffold env targetName tokens fs).fs).files_to_create _ = _
    rw [hF2]
    rfl
  have hall := processStructures_all_exist env
    (ScaffoldContext.build targetName tokens
      (runScaffold env targetName tokens fs).fs)
    (buildRequests tokens).2
    (initState (runScaffold env targetName tokens fs).fs)
    (fun h => hcreates.2.2.1 h) (fun h => hcreates.2.2.2 h)
  rw [hrun2, hall]
  exact ⟨rfl, rfl, List.nil_append _⟩

/-- C2 (corrected): counterexample — a second identical run does **not**
report every requested artifact as skipped.  Tokens `["l"]` over an empty
directory: the first run creates `LICENSE`; the second run creates nothing
— but its skipped partition is empty too, even though a file artifact was
requested (the request is silently dropped at plan-build time). -/
theorem second_run_artifacts_unreported :
    (runScaffold defaultEnv (ps "proj") [ps "l"]
        (runScaffold defaultEnv (ps "proj") [ps "l"] []).fs).created = []
  ∧ (runScaffold defaultEnv (ps "proj") [ps "l"]
        (runScaffold defaultEnv (ps "proj") [ps "l"] []).fs).skipped = []
  ∧ (runScaffold defaultEnv (ps "proj") [ps "l"] []).created = [ps "LICENSE"]
  ∧ (buildRequests [ps "l"]).1 ≠ [] := by decide

/-- Witness for C2 (amended) with tokens `["l", "f"]` over an empty
directory. -/
theorem rerun_idempotent_no_writes_witness :
    (runScaffold defaultEnv (ps "proj") [ps "l", ps "f"]
        (runScaffold defaultEnv (ps "proj") [ps "l", ps "f"] []).fs).fs
      = (runScaffold defaultEnv (ps "proj") [ps "l", ps "f"] []).fs
    ∧ (runScaffold defaultEnv (ps "proj") [ps "l", ps "f"]
        (runScaffold defaultEnv (ps "proj") [ps "l", ps "f"] []).fs).created
      = []
    ∧ (runScaffold defaultEnv (ps "proj") [ps "l", ps "f"]
        (runScaffold defaultEnv (ps "proj") [ps "l", ps "f"] []).fs).skipped
      = (buildRequests [ps "l", ps "f"]).2.filterMap structName :=
  rerun_idempotent_no_writes defaultEnv (ps "proj") [ps "l", ps "f"] []
    rfl (by decide)
